import Mathlib

/-!
# Block-matching motion estimation (`dz/dz-02/part-2/main.c`)

A shallow embedding of the block extractor, the mean-absolute-difference
metric, the search-window builder and the vector selector, of the image
decoder that `main.c` shares with `dz/bruh.c`, and of the histogram of
`dz/bruh.c`, followed by the properties established about them.

Modelling conventions.

* A `uint8_t**` grid is a function from row and column to the sample, read
  only below the `height` and `width` stored next to it.  A read outside
  that rectangle is undefined behaviour in the source; the functions that
  can perform such a read return `Option`, and `none` stands for it.
* Samples are `uint8_t`; C promotes them to `int` before subtracting, so
  the absolute differences are computed over the integers.  The model keeps
  samples as natural numbers.
* `double` values are modelled as rationals.  The accumulator of
  `get_block_mad` only ever holds non-negative integers far below `2^53`,
  which `double` represents exactly; the single final division is modelled
  exactly (for the 16x16 blocks built by `get_block_difference` the divisor
  is 256 and the `double` quotient is exact as well).
* Image dimensions are `int64_t` in the source and are non-negative for
  every image that has a grid; they are modelled as natural numbers.
* Memory returned by `malloc` and automatic arrays hold indeterminate bytes;
  where a function is written with its stores as explicit state, these
  contents are parameters named `fresh`.
* The stream of an opened file is the list of the bytes still to be read;
  the failure to open a file is outside the model.
-/

namespace MAIS

/-- The constant `BLOCK_WIDTH`. -/
def BLOCK_WIDTH : Nat := 16

/-- The constant `BLOCK_HEIGHT`. -/
def BLOCK_HEIGHT : Nat := 16

/-- The constant `BLOCK_X_PLUS_DIFF`. -/
def BLOCK_X_PLUS_DIFF : Nat := 16

/-- The constant `BLOCK_X_MINUS_DIFF`. -/
def BLOCK_X_MINUS_DIFF : Nat := 16

/-- The constant `BLOCK_Y_PLUS_DIFF`. -/
def BLOCK_Y_PLUS_DIFF : Nat := 16

/-- The constant `BLOCK_Y_MINUS_DIFF`. -/
def BLOCK_Y_MINUS_DIFF : Nat := 16

/-- The struct `ImageData_s`: `data r c` is `data[r][c]`. -/
structure ImageData where
  data : Nat → Nat → Nat
  width : Nat
  height : Nat

/-- The struct `BlockData_s`: a grid of scores with the cell of zero displacement. -/
structure BlockData where
  data : Nat → Nat → ℚ
  width : Nat
  height : Nat
  center_x : Nat
  center_y : Nat

/-- The struct `Vector2D_i64_s`. -/
structure Vector2D_i64 where
  x : Int
  y : Int
deriving DecidableEq

/-- Subtraction of two `uint64_t` values: for `a, b < 2^64` this is
`(a - b) mod 2^64`. -/
def sub_u64 (a b : Nat) : Nat :=
  if b ≤ a then a - b else a + 2 ^ 64 - b

/-- Every read `image.data[origin_y + i][origin_x + j]` performed by the two
loops of `get_block_from_origin` lies inside the image. -/
def reads_in_range (image : ImageData) (origin_x origin_y : Nat) : Prop :=
  ∀ i < BLOCK_HEIGHT, ∀ j < BLOCK_WIDTH,
    origin_y + i < image.height ∧ origin_x + j < image.width

instance (image : ImageData) (origin_x origin_y : Nat) :
    Decidable (reads_in_range image origin_x origin_y) := by
  unfold reads_in_range; infer_instance

/-- The block that the loops of `get_block_from_origin` fill:
`to_return->data[i][j] = image.data[origin_y + i][origin_x + j]`. -/
def copy_block (image : ImageData) (origin_x origin_y : Nat) : ImageData :=
  { data := fun i j => image.data (origin_y + i) (origin_x + j)
    width := BLOCK_WIDTH
    height := BLOCK_HEIGHT }

/-- The function `get_block_from_origin`; `none` when a read leaves the image. -/
def get_block_from_origin (image : ImageData) (origin_x origin_y : Nat) :
    Option ImageData :=
  if reads_in_range image origin_x origin_y then
    some (copy_block image origin_x origin_y)
  else none

/-- The absolute difference of two samples, as the two branches of the inner
loop of `get_block_mad` compute it. -/
def abs_diff (a b : Nat) : Nat := if a > b then a - b else b - a

/-- The accumulation loops of `get_block_mad`: the value of `result` after them. -/
def mad_accumulate (reference_block interesting_block : ImageData)
    (height_max width_max : Nat) : Nat :=
  (List.range height_max).foldl (fun result i =>
    (List.range width_max).foldl (fun result j =>
      if reference_block.data i j > interesting_block.data i j then
        result + (reference_block.data i j - interesting_block.data i j)
      else
        result + (interesting_block.data i j - reference_block.data i j))
      result) 0

/-- The function `get_block_mad`, as the exact quotient of the accumulated sum
by `n_elements`.  The source returns this quotient rounded to the nearest
`double`; the two are equal exactly when the quotient is a `double`
(`double_representable` below), which is the case for the 16x16 blocks that
`get_block_difference` builds.  For other areas the statements below that
name a value of `get_block_mad` speak of the exact quotient. -/
def get_block_mad (reference_block interesting_block : ImageData) : ℚ :=
  let width_max :=
    if interesting_block.width < reference_block.width then interesting_block.width
    else reference_block.width
  let height_max :=
    if interesting_block.height < reference_block.height then interesting_block.height
    else reference_block.height
  let result := mad_accumulate reference_block interesting_block height_max width_max
  let n_elements : ℚ := (width_max : ℚ) * (height_max : ℚ)
  (result : ℚ) / n_elements

/-- The origin that `get_block_difference` derives from the block index
(lines 186 to 188); `none` when `blocks_per_row` is zero and the remainder
is undefined. -/
def block_origin (reference_image : ImageData) (origin_block_index : Nat) :
    Option (Nat × Nat) :=
  let blocks_per_row := reference_image.width / BLOCK_WIDTH
  if blocks_per_row = 0 then none
  else some (origin_block_index % blocks_per_row, origin_block_index / blocks_per_row)

/-- The values computed by lines 193 to 215 of `get_block_difference`. -/
structure SearchWindow where
  left_offset : Nat
  right_offset : Nat
  up_offset : Nat
  down_offset : Nat
  x_start : Nat
  y_start : Nat

/-- Lines 193 to 215 of `get_block_difference`: the four clipped offsets and
the start of the window. -/
def search_window (reference_image : ImageData) (origin_x origin_y : Nat) :
    SearchWindow :=
  let left_offset := BLOCK_X_MINUS_DIFF
  let right_offset := BLOCK_X_PLUS_DIFF
  let up_offset := BLOCK_Y_MINUS_DIFF
  let down_offset := BLOCK_Y_PLUS_DIFF
  let left_offset := if origin_x < left_offset then origin_x else left_offset
  let up_offset := if origin_y < down_offset then origin_y else up_offset
  let right_offset :=
    if origin_x + right_offset ≥ reference_image.width then
      sub_u64 (sub_u64 reference_image.width origin_x) 1
    else right_offset
  let down_offset :=
    if origin_y + down_offset ≥ reference_image.height then
      sub_u64 (sub_u64 reference_image.height origin_y) 1
    else down_offset
  { left_offset := left_offset
    right_offset := right_offset
    up_offset := up_offset
    down_offset := down_offset
    x_start := sub_u64 origin_x left_offset
    y_start := sub_u64 origin_y up_offset }

/-- The map that lines 218 to 241 of `get_block_difference` allocate and fill:
cell `(i, j)` holds the score of the candidate block at
`(x_start + j, y_start + i)`. -/
def difference_map (reference_block interesting_image : ImageData) (w : SearchWindow) :
    BlockData :=
  { data := fun i j =>
      get_block_mad reference_block
        (copy_block interesting_image (w.x_start + j) (w.y_start + i))
    width := w.down_offset + w.up_offset + 1
    height := w.left_offset + w.right_offset + 1
    center_x := w.left_offset
    center_y := w.up_offset }

/-- The function `get_block_difference`.  The result is `none` when
`blocks_per_row` is zero or when a block extraction reads outside its image. -/
def get_block_difference (reference_image interesting_image : ImageData)
    (origin_block_index : Nat) : Option BlockData :=
  match block_origin reference_image origin_block_index with
  | none => none
  | some (origin_x, origin_y) =>
    match get_block_from_origin reference_image origin_x origin_y with
    | none => none
    | some reference_block =>
      let w := search_window reference_image origin_x origin_y
      let to_return := difference_map reference_block interesting_image w
      if ∀ i < to_return.height, ∀ j < to_return.width,
          reads_in_range interesting_image (w.x_start + j) (w.y_start + i) then
        some to_return
      else none

/-- Cell `(r, c)` has been visited when the scan of `get_movement_vector`
over rows of `w` columns is about to visit cell `(i, j)`. -/
def scanned (w i j r c : Nat) : Prop := c < w ∧ (r < i ∨ (r = i ∧ c < j))

/-- Cell `(r, c)` comes before cell `(i, j)` in row-major order. -/
def row_major_before (r c i j : Nat) : Prop := r < i ∨ (r = i ∧ c < j)

/-- The invariant of the scan of `get_movement_vector` when it is about to
visit cell `(i, j)`: `best` is the first visited cell with the least score
(or the initial cell). -/
def scan_invariant (bd : BlockData) (i j : Nat) (best : Nat × Nat) : Prop :=
  (best = (0, 0) ∨ scanned bd.width i j best.2 best.1) ∧
  (∀ r c, scanned bd.width i j r c → bd.data best.2 best.1 ≤ bd.data r c) ∧
  (∀ r c, scanned bd.width i j r c → row_major_before r c best.2 best.1 →
    bd.data best.2 best.1 < bd.data r c)

/-- The scan of `get_movement_vector`: the pair `(best->x, best->y)` after the
two loops. -/
def best_cell (block_difference : BlockData) : Nat × Nat :=
  (List.range block_difference.height).foldl (fun best i =>
    (List.range block_difference.width).foldl (fun best j =>
      if block_difference.data i j < block_difference.data best.2 best.1 then (j, i)
      else best)
      best) (0, 0)

/-- The function `get_movement_vector`. -/
def get_movement_vector (block_difference : BlockData) : Vector2D_i64 :=
  let best := best_cell block_difference
  { x := (best.1 : Int) - (block_difference.center_x : Int)
    y := (best.2 : Int) - (block_difference.center_y : Int) }

/-! ## Inputs used in examples -/

/-- A 32x32 image, zero except for a 16x16 block of samples 255 whose top-left
pixel is `(sx, sy)`. -/
def bright_block (sx sy : Nat) : ImageData :=
  { data := fun r c => if sy ≤ r ∧ r < sy + 16 ∧ sx ≤ c ∧ c < sx + 16 then 255 else 0
    width := 32
    height := 32 }

/-- A 64x64 image with varied samples. -/
def image64 : ImageData :=
  { data := fun r c => (7 * r + 13 * c) % 256
    width := 64
    height := 64 }

/-- A 16x16 image of zero samples: a single block. -/
def zero16 : ImageData :=
  { data := fun _ _ => 0
    width := 16
    height := 16 }

/-- A map of two rows and three columns in which every cell of row 1 holds
the least score. -/
def tie_map : BlockData :=
  { data := fun i _ => if i = 1 then 1 else 2
    width := 3
    height := 2
    center_x := 1
    center_y := 1 }

/-- A block of 2 rows and 3 columns. -/
def block_a : ImageData :=
  { data := fun i j => i + j
    width := 3
    height := 2 }

/-- A block of 5 rows and 2 columns. -/
def block_b : ImageData :=
  { data := fun _ j => 2 * j
    width := 2
    height := 5 }

/-! ## The metric as the specification words it -/

/-- A 272x16 image of zero samples: one row of 17 blocks. -/
def wide_image : ImageData :=
  { data := fun _ _ => 0
    width := 272
    height := 16 }

/-- A 64x64 image, zero except for samples 255 in columns 1 to 16 of rows
`top` to `top + 15`. -/
def bright_rows (top : Nat) : ImageData :=
  { data := fun r c => if top ≤ r ∧ r < top + 16 ∧ 1 ≤ c ∧ c < 17 then 255 else 0
    width := 64
    height := 64 }

/-! ## The filling loops with the grid as explicit state -/

/-- Two nested loops `for i < height`, `for j < width` whose body stores the
value computed for `(i, j)` at `data[i][j]`, the grid being passed from one
iteration to the next; `init` is the grid before the loops and `none` is
reached as soon as the computation of one cell reads outside its image. -/
def fill_grid {α : Type} (height width : Nat) (cell : Nat → Nat → Option α)
    (init : Nat → Nat → α) : Option (Nat → Nat → α) :=
  (List.range height).foldl (fun st i =>
    (List.range width).foldl (fun st j =>
      match st, cell i j with
      | some data, some v => some (fun r c => if r = i ∧ c = j then v else data r c)
      | _, _ => none) st) (some init)

/-- One read `image.data[r][c]`; `none` outside the image. -/
def read_sample (image : ImageData) (r c : Nat) : Option Nat :=
  if r < image.height ∧ c < image.width then some (image.data r c) else none

/-- The function `get_block_from_origin` with its two loops written out:
`fresh` stands for the indeterminate contents of the rows that `malloc`
returns.  `get_block_from_origin` above is its closed form. -/
def get_block_from_origin_loops (image : ImageData) (origin_x origin_y : Nat)
    (fresh : Nat → Nat → Nat) : Option ImageData :=
  (fill_grid BLOCK_HEIGHT BLOCK_WIDTH
      (fun i j => read_sample image (origin_y + i) (origin_x + j)) fresh).map
    (fun data => { data := data, width := BLOCK_WIDTH, height := BLOCK_HEIGHT })

/-- The function `get_block_difference` with its loops written out: the
blocks are extracted by `get_block_from_origin_loops` and every cell is
stored into the map passed from one iteration to the next.  `fresh_block` and
`fresh_map` stand for the indeterminate contents of the memory that `malloc`
returns.  `get_block_difference` above is its closed form. -/
def get_block_difference_loops (reference_image interesting_image : ImageData)
    (origin_block_index : Nat) (fresh_block : Nat → Nat → Nat)
    (fresh_map : Nat → Nat → ℚ) : Option BlockData :=
  match block_origin reference_image origin_block_index with
  | none => none
  | some (origin_x, origin_y) =>
    match get_block_from_origin_loops reference_image origin_x origin_y fresh_block with
    | none => none
    | some reference_block =>
      let w := search_window reference_image origin_x origin_y
      let height := w.left_offset + w.right_offset + 1
      let width := w.down_offset + w.up_offset + 1
      (fill_grid height width
          (fun i j =>
            (get_block_from_origin_loops interesting_image (w.x_start + j) (w.y_start + i)
                fresh_block).map
              (fun t_block => get_block_mad reference_block t_block))
          fresh_map).map
        (fun data =>
          { data := data
            width := width
            height := height
            center_x := w.left_offset
            center_y := w.up_offset })

/-! ## Values that a `double` holds -/

/-- The rational `q` is a finite value of the IEEE 754 binary64 format:
`m * 2^p / 2^k` with a significand below `2^53` in absolute value and an
exponent between `-1074` and `971`. -/
def double_representable (q : ℚ) : Prop :=
  ∃ (m : ℤ) (p k : ℕ), |m| < 2 ^ 53 ∧ p ≤ 971 ∧ k ≤ 1074 ∧
    q = (m : ℚ) * (2 : ℚ) ^ p / (2 : ℚ) ^ k

/-- A block of one row and three columns holding 1, 0, 0. -/
def third_a : ImageData :=
  { data := fun _ j => if j = 0 then 1 else 0
    width := 3
    height := 1 }

/-- A block of one row and three columns holding zeros. -/
def third_b : ImageData :=
  { data := fun _ _ => 0
    width := 3
    height := 1 }

/-! ## The histogram utility (`dz/bruh.c`) -/

/-- The constant `N_GROUPS`. -/
def N_GROUPS : Nat := 16

/-- The function `get_group`: its argument is a `uint8_t`, shifted right by
four bits. -/
def get_group (byte : Nat) : Nat := (byte % 256) >>> 4

/-- The function `get_group_statistics`: the sixteen counters, zeroed and then
incremented once per pixel, as a function of the group index.  The counters
are `uint64_t`; they cannot wrap for an image that fits in memory. -/
def get_group_statistics (image_data : ImageData) : Nat → Nat :=
  (List.range image_data.height).foldl (fun group_statistics i =>
    (List.range image_data.width).foldl (fun group_statistics j =>
      fun g =>
        if g = get_group (image_data.data i j) % N_GROUPS then group_statistics g + 1
        else group_statistics g)
      group_statistics) (fun _ => 0)

/-- The first loop of `main` in `bruh.c`: the value of `n_total`. -/
def main_n_total (group_statistics : Nat → Nat) : Nat :=
  (List.range N_GROUPS).foldl (fun n_total i => n_total + group_statistics i) 0

/-- The second loop of `main` in `bruh.c`: the sixteen fractions it prints,
in exact arithmetic. -/
def main_fractions (group_statistics : Nat → Nat) : List ℚ :=
  (List.range N_GROUPS).map
    (fun i => (group_statistics i : ℚ) / (main_n_total group_statistics : ℚ))

/-! ## The image decoder (`read_image_data`, the same in `main.c` and `bruh.c`)

A stream is the list of the bytes that remain to be read from the opened
file.  Strings are lists of bytes without the terminating NUL. -/

/-- The constant `BUFFER_SIZE`. -/
def BUFFER_SIZE : Nat := 32

/-- The constant `N_HEADER_LINES`. -/
def N_HEADER_LINES : Nat := 4

/-- The library function `isspace` in the "C" locale: space, `\t`, `\n`, `\v`,
`\f`, `\r`. -/
def isspace (c : Nat) : Bool := decide (c = 32 ∨ (9 ≤ c ∧ c ≤ 13))

/-- The bytes that `fgets` stores given room for `n` of them, and the stream
it leaves: reading stops after a newline, after `n` bytes or at the end of
the stream. -/
def fgets_take : Nat → List Nat → List Nat × List Nat
  | 0, stream => ([], stream)
  | _ + 1, [] => ([], [])
  | n + 1, c :: stream =>
    if c = 10 then ([c], stream)
    else (c :: (fgets_take n stream).1, (fgets_take n stream).2)

/-- The library function `fgets(buffer, size, fp)`: `none` (a null pointer)
when the stream is at its end, otherwise the bytes stored before the NUL and
the remaining stream. -/
def fgets (size : Nat) (stream : List Nat) : Option (List Nat × List Nat) :=
  match stream with
  | [] => none
  | _ :: _ => some (fgets_take (size - 1) stream)

/-- The string that a buffer holds: its bytes up to the first NUL. -/
def c_string (buffer : List Nat) : List Nat := buffer.takeWhile (fun c => c ≠ 0)

/-- The function `ltrim`: skips the leading white space. -/
def ltrim (s : List Nat) : List Nat := s.dropWhile isspace

/-- The function `rtrim`: walks back from the end over white space and cuts
the string there.  When the string holds no other byte the walk passes its
first byte, which is undefined behaviour (`none`). -/
def rtrim (s : List Nat) : Option (List Nat) :=
  if s.all isspace then none
  else some (s.reverse.dropWhile isspace).reverse

/-- The function `trim`, applied to the string in a buffer. -/
def trim (buffer : List Nat) : Option (List Nat) := rtrim (ltrim (c_string buffer))

/-- The digits that `strtoll` consumes, accumulated in base 10. -/
def parse_digits : List Nat → Nat → Nat
  | [], acc => acc
  | c :: s, acc => if 48 ≤ c ∧ c ≤ 57 then parse_digits s (acc * 10 + (c - 48)) else acc

/-- The library function `strtoll(s, &end, 10)`: white space, an optional
sign, decimal digits; the value is clamped to the range of `long long`, and
is 0 when there is no digit. -/
def strtoll (s : List Nat) : Int :=
  match s.dropWhile isspace with
  | 45 :: rest => max (-(2 ^ 63)) (-(parse_digits rest 0 : Int))
  | 43 :: rest => min (2 ^ 63 - 1) (parse_digits rest 0 : Int)
  | rest => min (2 ^ 63 - 1) (parse_digits rest 0 : Int)

/-- The outcome of the header loop of `read_image_data`. -/
inductive HeaderResult where
  | eof (line : Nat) : HeaderResult
  | undefined : HeaderResult
  | ok (results : List (List Nat)) (rest : List Nat) : HeaderResult

/-- The header loop of `read_image_data` (lines 76 to 83) with `remaining`
iterations to go at index `i`: each iteration reads a line with `fgets`,
stops with `eof (i + 1)` when `fgets` returns a null pointer, and stores the
trimmed line. -/
def read_header : Nat → Nat → List Nat → HeaderResult
  | 0, _, stream => HeaderResult.ok [] stream
  | remaining + 1, i, stream =>
    match fgets BUFFER_SIZE stream with
    | none => HeaderResult.eof (i + 1)
    | some (buffer, rest) =>
      match trim buffer with
      | none => HeaderResult.undefined
      | some line =>
        match read_header remaining (i + 1) rest with
        | HeaderResult.ok results rest' => HeaderResult.ok (line :: results) rest'
        | other => other

/-- The copying loop of `read_image_data` (lines 99 to 103) at row index `i`,
with `rows_left = height - i` allocated rows still ahead.  `fread` returns
`min width (remaining bytes)`; the loop ends when that is 0; otherwise the
whole of `row_buffer`, of which only the bytes just read are new, is stored
into `data[i]`.  When no allocated row is left that store is outside the
allocation (`none`). -/
def read_rows (width : Nat) :
    Nat → Nat → List Nat → (Nat → Nat) → (Nat → Nat → Nat) → Option (Nat → Nat → Nat)
  | 0, _, stream, _, data => if min width stream.length = 0 then some data else none
  | rows_left + 1, i, stream, row_buffer, data =>
    if min width stream.length = 0 then some data
    else
      read_rows width rows_left (i + 1) (stream.drop (min width stream.length))
        (fun j => if j < min width stream.length then stream.getD j 0 else row_buffer j)
        (fun r c =>
          if r = i ∧ c < width then
            (if c < min width stream.length then stream.getD c 0 else row_buffer c)
          else data r c)

/-- The ways in which `read_image_data` ends once the file is open. -/
inductive ReadResult where
  | header_error (line : Nat) : ReadResult
  | undefined : ReadResult
  | image (img : ImageData) : ReadResult

/-- The function `read_image_data` on the stream of an opened file.
`fresh_rows` and `fresh_buffer` stand for the indeterminate contents of the
allocated rows and of `row_buffer`.  A width that is not positive (the
variable-length `row_buffer` needs a positive size) or a negative height is
undefined behaviour. -/
def read_image_data (stream : List Nat) (fresh_rows : Nat → Nat → Nat)
    (fresh_buffer : Nat → Nat) : ReadResult :=
  match read_header N_HEADER_LINES 0 stream with
  | HeaderResult.eof line => ReadResult.header_error line
  | HeaderResult.undefined => ReadResult.undefined
  | HeaderResult.ok results body =>
    let width := strtoll (results.getD 1 [])
    let height := strtoll (results.getD 2 [])
    if width ≤ 0 ∨ height < 0 then ReadResult.undefined
    else
      match read_rows width.toNat height.toNat 0 body fresh_buffer fresh_rows with
      | none => ReadResult.undefined
      | some data =>
        ReadResult.image { data := data, width := width.toNat, height := height.toNat }

/-- The decimal numeral of `n` as bytes, most significant digit first. -/
def decimal (n : Nat) : List Nat := ((Nat.digits 10 n).reverse).map (fun d => d + 48)

/-- The bytes of rows `i` to `i + k - 1` of a grid of `W` columns, row after
row. -/
def encode_rows (grid : Nat → Nat → Nat) (W : Nat) : Nat → Nat → List Nat
  | _, 0 => []
  | i, k + 1 => (List.range W).map (fun j => grid i j) ++ encode_rows grid W (i + 1) k

/-- The stream made of the given lines, each followed by a newline. -/
def join_lines : List (List Nat) → List Nat
  | [] => []
  | l :: ls => l ++ 10 :: join_lines ls

/-- A header line that fits the line buffer with its newline, holds neither a
NUL nor a newline, and is not blank. -/
def header_line (l : List Nat) : Prop :=
  l.length + 1 < BUFFER_SIZE ∧ 0 ∉ l ∧ 10 ∉ l ∧ ∃ c ∈ l, isspace c = false

/-- The stream that encodes a grid of `H` rows of `W` bytes: four header
lines (format tag, decimal width, decimal height, maximum value), each ended
by a newline, then the grid in row-major order. -/
def encode_image (tag maxval : List Nat) (grid : Nat → Nat → Nat) (W H : Nat) : List Nat :=
  join_lines [tag, decimal W, decimal H, maxval] ++ encode_rows grid W 0 H

/-- A stream without any newline: `P5`, `1`, `1` and `255`, each padded with
spaces to the 31 bytes that one `fgets` call takes, then the byte 7. -/
def long_line_stream : List Nat :=
  [80, 53] ++ List.replicate 29 32 ++ [49] ++ List.replicate 30 32 ++ [49]
    ++ List.replicate 30 32 ++ [50, 53, 53] ++ List.replicate 28 32 ++ [7]

/-- The header `P5`, `1`, `1`, `255` of a 1x1 image, each line ended by a
newline. -/
def header_1x1 : List Nat := [80, 53, 10, 49, 10, 49, 10, 50, 53, 53, 10]

/-- A loop `for k < n` preserves an invariant indexed by the loop counter. -/
theorem foldl_range_invariant {σ : Type} (P : Nat → σ → Prop) (f : σ → Nat → σ)
    (n : Nat) (init : σ) (h0 : P 0 init)
    (hstep : ∀ k, k < n → ∀ s, P k s → P (k + 1) (f s k)) :
    P n ((List.range n).foldl f init) := by
  induction n with
  | zero => simpa using h0
  | succ n ih =>
    rw [List.range_succ, List.foldl_append]
    simp only [List.foldl_cons, List.foldl_nil]
    exact hstep n (Nat.lt_succ_self n) _
      (ih (fun k hk s hs => hstep k (Nat.lt_succ_of_lt hk) s hs))

/-- An accumulating loop computes the initial value plus the sum of its increments. -/
theorem foldl_range_add (f : Nat → Nat) (n init : Nat) :
    (List.range n).foldl (fun acc k => acc + f k) init
      = init + ∑ k in Finset.range n, f k := by
  induction n with
  | zero => simp
  | succ n ih =>
    rw [List.range_succ, List.foldl_append, ih, Finset.sum_range_succ]
    simp only [List.foldl_cons, List.foldl_nil]
    omega

/-! ## The mean absolute difference -/

theorem abs_diff_comm (a b : Nat) : abs_diff a b = abs_diff b a := by
  unfold abs_diff; split_ifs <;> omega

theorem abs_diff_eq_zero_iff (a b : Nat) : abs_diff a b = 0 ↔ a = b := by
  unfold abs_diff; split_ifs <;> omega

/-- The accumulation loops of `get_block_mad` compute the double sum of the
absolute differences. -/
theorem mad_accumulate_eq_sum (a b : ImageData) (h w : Nat) :
    mad_accumulate a b h w
      = ∑ i in Finset.range h, ∑ j in Finset.range w, abs_diff (a.data i j) (b.data i j) := by
  unfold mad_accumulate
  have inner : ∀ (result i : Nat),
      (List.range w).foldl (fun result j =>
        if a.data i j > b.data i j then result + (a.data i j - b.data i j)
        else result + (b.data i j - a.data i j)) result
        = result + ∑ j in Finset.range w, abs_diff (a.data i j) (b.data i j) := by
    intro result i
    rw [← foldl_range_add]
    congr 1
    funext acc j
    unfold abs_diff
    split_ifs <;> rfl
  simp only [inner]
  rw [foldl_range_add]
  simp

theorem mad_accumulate_comm (a b : ImageData) (h w : Nat) :
    mad_accumulate a b h w = mad_accumulate b a h w := by
  simp only [mad_accumulate_eq_sum, abs_diff_comm]

theorem mad_accumulate_eq_zero_iff (a b : ImageData) (h w : Nat) :
    mad_accumulate a b h w = 0 ↔ ∀ i < h, ∀ j < w, a.data i j = b.data i j := by
  rw [mad_accumulate_eq_sum]
  simp only [Finset.sum_eq_zero_iff, Finset.mem_range, abs_diff_eq_zero_iff]

/-- The two `if`s at the top of `get_block_mad` select the smaller dimension. -/
theorem ite_lt_eq_min (x y : Nat) : (if x < y then x else y) = min y x := by
  split_ifs <;> omega

theorem get_block_mad_eq (a b : ImageData) :
    get_block_mad a b
      = (mad_accumulate a b (min a.height b.height) (min a.width b.width) : ℚ)
          / (((min a.width b.width : Nat) : ℚ) * ((min a.height b.height : Nat) : ℚ)) := by
  simp only [get_block_mad, ite_lt_eq_min]

theorem get_block_mad_nonneg (a b : ImageData) : 0 ≤ get_block_mad a b := by
  rw [get_block_mad_eq]
  positivity

theorem get_block_mad_eq_zero_iff (a b : ImageData)
    (hw : 0 < min a.width b.width) (hh : 0 < min a.height b.height) :
    get_block_mad a b = 0
      ↔ ∀ i < min a.height b.height, ∀ j < min a.width b.width, a.data i j = b.data i j := by
  rw [get_block_mad_eq, ← mad_accumulate_eq_zero_iff]
  have hw' : ((min a.width b.width : Nat) : ℚ) ≠ 0 := by exact_mod_cast hw.ne'
  have hh' : ((min a.height b.height : Nat) : ℚ) ≠ 0 := by exact_mod_cast hh.ne'
  rw [div_eq_zero_iff]
  constructor
  · rintro (h | h)
    · exact_mod_cast h
    · exact absurd h (mul_ne_zero hw' hh')
  · intro h
    left
    exact_mod_cast h

/-! ## The scan of `get_movement_vector` -/

theorem scan_invariant_step (bd : BlockData) (i j : Nat) (best : Nat × Nat)
    (hj : j < bd.width) (h : scan_invariant bd i j best) :
    scan_invariant bd i (j + 1)
      (if bd.data i j < bd.data best.2 best.1 then (j, i) else best) := by
  obtain ⟨h1, h2, h3⟩ := h
  have hcases : ∀ r c, scanned bd.width i (j + 1) r c →
      scanned bd.width i j r c ∨ (r = i ∧ c = j) := by
    intro r c hs
    unfold scanned at hs ⊢
    omega
  split_ifs with hlt
  · refine ⟨Or.inr ?_, ?_, ?_⟩
    · show scanned bd.width i (j + 1) i j
      unfold scanned; omega
    · intro r c hs
      show bd.data i j ≤ bd.data r c
      rcases hcases r c hs with hs | ⟨rfl, rfl⟩
      · exact le_of_lt (lt_of_lt_of_le hlt (h2 r c hs))
      · exact le_refl _
    · intro r c hs hb
      show bd.data i j < bd.data r c
      rcases hcases r c hs with hs | ⟨rfl, rfl⟩
      · exact lt_of_lt_of_le hlt (h2 r c hs)
      · unfold row_major_before at hb
        simp only at hb
        omega
  · refine ⟨?_, ?_, ?_⟩
    · rcases h1 with h1 | h1
      · exact Or.inl h1
      · right
        unfold scanned at h1 ⊢
        omega
    · intro r c hs
      rcases hcases r c hs with hs | ⟨rfl, rfl⟩
      · exact h2 r c hs
      · exact not_lt.mp hlt
    · intro r c hs hb
      rcases hcases r c hs with hs | ⟨rfl, rfl⟩
      · exact h3 r c hs hb
      · exfalso
        unfold row_major_before at hb
        rcases h1 with h1 | h1
        · rw [h1] at hb
          simp only at hb
          omega
        · unfold scanned at h1
          omega

theorem scan_invariant_next_row (bd : BlockData) (i : Nat) (best : Nat × Nat)
    (h : scan_invariant bd i bd.width best) : scan_invariant bd (i + 1) 0 best := by
  have hiff : ∀ r c, scanned bd.width (i + 1) 0 r c ↔ scanned bd.width i bd.width r c := by
    intro r c
    unfold scanned
    omega
  unfold scan_invariant at h ⊢
  simpa only [hiff] using h

theorem scan_invariant_best_cell (bd : BlockData) :
    scan_invariant bd bd.height 0 (best_cell bd) := by
  unfold best_cell
  apply foldl_range_invariant (fun i best => scan_invariant bd i 0 best)
  · refine ⟨Or.inl rfl, ?_, ?_⟩ <;>
    · intro r c hs
      unfold scanned at hs
      omega
  · intro i _ best hbest
    apply scan_invariant_next_row
    apply foldl_range_invariant (fun j best => scan_invariant bd i j best)
    · exact hbest
    · intro j hj s hs
      exact scan_invariant_step bd i j s hj hs

/-- The scan ends on a cell of the map that holds the least score and is
the first such cell in row-major order. -/
theorem best_cell_spec (bd : BlockData) (hw : 0 < bd.width) (hh : 0 < bd.height) :
    (best_cell bd).2 < bd.height ∧ (best_cell bd).1 < bd.width ∧
    (∀ i j, i < bd.height → j < bd.width →
      bd.data (best_cell bd).2 (best_cell bd).1 ≤ bd.data i j) ∧
    (∀ i j, i < bd.height → j < bd.width →
      row_major_before i j (best_cell bd).2 (best_cell bd).1 →
      bd.data (best_cell bd).2 (best_cell bd).1 < bd.data i j) := by
  obtain ⟨h1, h2, h3⟩ := scan_invariant_best_cell bd
  have hs : ∀ i j, i < bd.height → j < bd.width → scanned bd.width bd.height 0 i j := by
    intro i j hi hj
    unfold scanned
    omega
  refine ⟨?_, ?_, fun i j hi hj => h2 i j (hs i j hi hj),
    fun i j hi hj hb => h3 i j (hs i j hi hj) hb⟩
  · rcases h1 with h1 | h1
    · rw [h1]; exact hh
    · unfold scanned at h1; omega
  · rcases h1 with h1 | h1
    · rw [h1]; exact hw
    · unfold scanned at h1; omega

/-- A cell of the map that holds the least score and is the first such cell
in row-major order is the cell on which the scan ends. -/
theorem best_cell_unique (bd : BlockData) (r c : Nat) (hr : r < bd.height)
    (hc : c < bd.width)
    (hmin : ∀ i j, i < bd.height → j < bd.width → bd.data r c ≤ bd.data i j)
    (hfirst : ∀ i j, i < bd.height → j < bd.width → row_major_before i j r c →
      bd.data r c < bd.data i j) :
    best_cell bd = (c, r) := by
  obtain ⟨b2, b1, bmin, bfirst⟩ :=
    best_cell_spec bd (Nat.lt_of_le_of_lt (Nat.zero_le c) hc)
      (Nat.lt_of_le_of_lt (Nat.zero_le r) hr)
  have h1 : ¬ row_major_before (best_cell bd).2 (best_cell bd).1 r c := fun hb =>
    absurd (hfirst _ _ b2 b1 hb) (not_lt.mpr (bmin r c hr hc))
  have h2 : ¬ row_major_before r c (best_cell bd).2 (best_cell bd).1 := fun hb =>
    absurd (bfirst r c hr hc hb) (not_lt.mpr (hmin _ _ b2 b1))
  unfold row_major_before at h1 h2
  have hx : (best_cell bd).1 = c := by omega
  have hy : (best_cell bd).2 = r := by omega
  exact Prod.ext hx hy

/-! ## Block extraction and the search window -/

theorem reads_in_range_iff (image : ImageData) (origin_x origin_y : Nat) :
    reads_in_range image origin_x origin_y
      ↔ origin_y + 16 ≤ image.height ∧ origin_x + 16 ≤ image.width := by
  unfold reads_in_range BLOCK_HEIGHT BLOCK_WIDTH
  constructor
  · intro h
    have := h 15 (by omega) 15 (by omega)
    omega
  · intro h i hi j hj
    omega

theorem sub_u64_of_le (a b : Nat) (h : b ≤ a) : sub_u64 a b = a - b := by
  unfold sub_u64
  rw [if_pos h]

theorem search_window_left (image : ImageData) (ox oy : Nat) :
    (search_window image ox oy).left_offset = min 16 ox := by
  simp only [search_window, BLOCK_X_MINUS_DIFF]
  split_ifs <;> omega

theorem search_window_up (image : ImageData) (ox oy : Nat) :
    (search_window image ox oy).up_offset = min 16 oy := by
  simp only [search_window, BLOCK_Y_MINUS_DIFF, BLOCK_Y_PLUS_DIFF]
  split_ifs <;> omega

theorem search_window_right (image : ImageData) (ox oy : Nat) (hx : ox < image.width) :
    (search_window image ox oy).right_offset = min 16 (image.width - ox - 1) := by
  simp only [search_window, BLOCK_X_PLUS_DIFF]
  rw [sub_u64_of_le _ _ (Nat.le_of_lt hx), sub_u64_of_le _ _ (by omega)]
  split_ifs <;> omega

theorem search_window_down (image : ImageData) (ox oy : Nat) (hy : oy < image.height) :
    (search_window image ox oy).down_offset = min 16 (image.height - oy - 1) := by
  simp only [search_window, BLOCK_Y_PLUS_DIFF]
  rw [sub_u64_of_le _ _ (Nat.le_of_lt hy), sub_u64_of_le _ _ (by omega)]
  split_ifs <;> omega

theorem search_window_x_start (image : ImageData) (ox oy : Nat) :
    (search_window image ox oy).x_start
      = ox - (search_window image ox oy).left_offset := by
  rw [search_window_left]
  simp only [search_window, BLOCK_X_MINUS_DIFF]
  rw [sub_u64_of_le _ _ (by split_ifs <;> omega)]
  split_ifs <;> omega

theorem search_window_y_start (image : ImageData) (ox oy : Nat) :
    (search_window image ox oy).y_start
      = oy - (search_window image ox oy).up_offset := by
  rw [search_window_up]
  simp only [search_window, BLOCK_Y_MINUS_DIFF, BLOCK_Y_PLUS_DIFF]
  rw [sub_u64_of_le _ _ (by split_ifs <;> omega)]
  split_ifs <;> omega

/-- Once the origin is known, `get_block_difference` returns the filled map
exactly when every block extraction stays inside its image. -/
theorem get_block_difference_eq (reference interesting : ImageData) (idx ox oy : Nat)
    (horigin : block_origin reference idx = some (ox, oy)) :
    get_block_difference reference interesting idx =
      if reads_in_range reference ox oy ∧
          ∀ i < (search_window reference ox oy).left_offset
                  + (search_window reference ox oy).right_offset + 1,
            ∀ j < (search_window reference ox oy).down_offset
                  + (search_window reference ox oy).up_offset + 1,
              reads_in_range interesting ((search_window reference ox oy).x_start + j)
                ((search_window reference ox oy).y_start + i) then
        some (difference_map (copy_block reference ox oy) interesting
          (search_window reference ox oy))
      else none := by
  unfold get_block_difference
  rw [horigin]
  simp only [get_block_from_origin]
  by_cases href : reads_in_range reference ox oy
  · simp only [href, if_true, true_and]
    rfl
  · simp only [href, if_false, false_and]

theorem block_origin_zero (image : ImageData) (hw : 16 ≤ image.width) :
    block_origin image 0 = some (0, 0) := by
  unfold block_origin BLOCK_WIDTH
  have : image.width / 16 ≠ 0 := by omega
  simp [this]

theorem get_block_difference_isSome_iff (reference interesting : ImageData)
    (idx ox oy : Nat) (horigin : block_origin reference idx = some (ox, oy)) :
    (get_block_difference reference interesting idx).isSome ↔
      (reads_in_range reference ox oy ∧
        ∀ i < (search_window reference ox oy).left_offset
                + (search_window reference ox oy).right_offset + 1,
          ∀ j < (search_window reference ox oy).down_offset
                + (search_window reference ox oy).up_offset + 1,
            reads_in_range interesting ((search_window reference ox oy).x_start + j)
              ((search_window reference ox oy).y_start + i)) := by
  rw [get_block_difference_eq reference interesting idx ox oy horigin]
  split_ifs with h
  · simp only [Option.isSome_some, true_iff]
    exact h
  · simp only [Option.isSome_none, Bool.false_eq_true, false_iff]
    exact h

/-- The score of two extracted blocks is zero exactly when they hold the
same samples. -/
theorem mad_copy_block_eq_zero_iff (a b : ImageData) (ax ay bx bY : Nat) :
    get_block_mad (copy_block a ax ay) (copy_block b bx bY) = 0
      ↔ ∀ i < 16, ∀ j < 16, a.data (ay + i) (ax + j) = b.data (bY + i) (bx + j) := by
  rw [get_block_mad_eq_zero_iff _ _ (by simp [copy_block, BLOCK_WIDTH])
    (by simp [copy_block, BLOCK_HEIGHT])]
  simp [copy_block, BLOCK_WIDTH, BLOCK_HEIGHT]

/-- When the candidate block of cell `(r, c)` equals the reference block and
no candidate visited earlier does, the selected vector is that of cell
`(r, c)`. -/
theorem movement_vector_first_match (reference interesting : ImageData)
    (idx ox oy r c : Nat)
    (horigin : block_origin reference idx = some (ox, oy))
    (hsome : (get_block_difference reference interesting idx).isSome)
    (hr : r < (search_window reference ox oy).left_offset
            + (search_window reference ox oy).right_offset + 1)
    (hc : c < (search_window reference ox oy).down_offset
            + (search_window reference ox oy).up_offset + 1)
    (hmatch : ∀ i < 16, ∀ j < 16,
      interesting.data ((search_window reference ox oy).y_start + r + i)
        ((search_window reference ox oy).x_start + c + j)
        = reference.data (oy + i) (ox + j))
    (hfirst : ∀ r' c',
      r' < (search_window reference ox oy).left_offset
            + (search_window reference ox oy).right_offset + 1 →
      c' < (search_window reference ox oy).down_offset
            + (search_window reference ox oy).up_offset + 1 →
      row_major_before r' c' r c →
      ∃ i < 16, ∃ j < 16,
        interesting.data ((search_window reference ox oy).y_start + r' + i)
          ((search_window reference ox oy).x_start + c' + j)
          ≠ reference.data (oy + i) (ox + j)) :
    (get_block_difference reference interesting idx).map get_movement_vector
      = some ⟨(c : Int) - ((search_window reference ox oy).left_offset : Int),
          (r : Int) - ((search_window reference ox oy).up_offset : Int)⟩ := by
  have hcond := (get_block_difference_isSome_iff reference interesting idx ox oy horigin).mp hsome
  rw [get_block_difference_eq reference interesting idx ox oy horigin, if_pos hcond]
  simp only [Option.map_some']
  congr 1
  have hbest : best_cell (difference_map (copy_block reference ox oy) interesting
      (search_window reference ox oy)) = (c, r) := by
    apply best_cell_unique
    · exact hr
    · exact hc
    · intro i j _ _
      have h0 : (difference_map (copy_block reference ox oy) interesting
          (search_window reference ox oy)).data r c = 0 := by
        simp only [difference_map]
        rw [mad_copy_block_eq_zero_iff]
        intro i hi j hj
        exact (hmatch i hi j hj).symm
      rw [h0]
      exact get_block_mad_nonneg _ _
    · intro i j hi hj hb
      have h0 : (difference_map (copy_block reference ox oy) interesting
          (search_window reference ox oy)).data r c = 0 := by
        simp only [difference_map]
        rw [mad_copy_block_eq_zero_iff]
        intro i hi j hj
        exact (hmatch i hi j hj).symm
      rw [h0]
      apply lt_of_le_of_ne (get_block_mad_nonneg _ _)
      intro hz
      have hz' := (mad_copy_block_eq_zero_iff _ _ _ _ _ _).mp hz.symm
      obtain ⟨a, ha, b, hb', hne⟩ := hfirst i j hi hj hb
      exact hne (hz' a ha b hb').symm
  simp only [get_movement_vector, hbest]
  rfl

/-! ## Block index 0 of images of at least 32x32 samples -/

theorem search_window_block0 (image : ImageData) (hw : 32 ≤ image.width)
    (hh : 32 ≤ image.height) :
    search_window image 0 0 =
      { left_offset := 0, right_offset := 16, up_offset := 0, down_offset := 16,
        x_start := 0, y_start := 0 } := by
  simp only [search_window, BLOCK_X_MINUS_DIFF, BLOCK_X_PLUS_DIFF, BLOCK_Y_MINUS_DIFF,
    BLOCK_Y_PLUS_DIFF, sub_u64]
  have h1 : ¬ (0 + 16 ≥ image.width) := by omega
  have h2 : ¬ (0 + 16 ≥ image.height) := by omega
  simp [h1, h2]

theorem get_block_difference_block0_isSome (reference interesting : ImageData)
    (hrw : 32 ≤ reference.width) (hrh : 32 ≤ reference.height)
    (hiw : 32 ≤ interesting.width) (hih : 32 ≤ interesting.height) :
    (get_block_difference reference interesting 0).isSome := by
  rw [get_block_difference_isSome_iff reference interesting 0 0 0
    (block_origin_zero reference (by omega)), search_window_block0 reference hrw hrh]
  simp only [reads_in_range_iff]
  refine ⟨by omega, ?_⟩
  intro i hi j hj
  omega

/-- At block index 0, when the candidate at pixel `(sx, sy)` equals the
reference block and no candidate visited earlier does, the selected vector
is `(sx, sy)`. -/
theorem block0_first_match (reference interesting : ImageData)
    (hrw : 32 ≤ reference.width) (hrh : 32 ≤ reference.height)
    (hiw : 32 ≤ interesting.width) (hih : 32 ≤ interesting.height)
    (sx sy : Nat) (hsx : sx ≤ 16) (hsy : sy ≤ 16)
    (hmatch : ∀ i < 16, ∀ j < 16,
      interesting.data (sy + i) (sx + j) = reference.data i j)
    (hfirst : ∀ qy qx, qy ≤ 16 → qx ≤ 16 → row_major_before qy qx sy sx →
      ∃ i < 16, ∃ j < 16, interesting.data (qy + i) (qx + j) ≠ reference.data i j) :
    (get_block_difference reference interesting 0).map get_movement_vector
      = some ⟨(sx : Int), (sy : Int)⟩ := by
  have h := movement_vector_first_match reference interesting 0 0 0 sy sx
    (block_origin_zero reference (by omega))
    (get_block_difference_block0_isSome reference interesting hrw hrh hiw hih)
  rw [search_window_block0 reference hrw hrh] at h
  simp only [Nat.zero_add, Nat.cast_zero, sub_zero] at h
  apply h
  · omega
  · omega
  · exact hmatch
  · intro r' c' hr' hc' hb
    exact hfirst r' c' (by omega) (by omega) hb

/-! ## The claims -/

/-- C2: bright-block example.  With the 32x32 reference image that is zero
except for the 16x16 block of 255 at pixel `(0, 0)` and the 32x32 interesting
image that is zero except for a 16x16 block of 255 at pixel `(sx, sy)`,
`0 ≤ sx ≤ 16` and `0 ≤ sy ≤ 16`, block index 0 yields the vector `(sx, sy)`. -/
theorem bright_block_example (sx sy : Nat) (hsx : sx ≤ 16) (hsy : sy ≤ 16) :
    (get_block_difference (bright_block 0 0) (bright_block sx sy) 0).map
        get_movement_vector
      = some ⟨(sx : Int), (sy : Int)⟩ := by
  apply block0_first_match (bright_block 0 0) (bright_block sx sy) (le_refl 32)
    (le_refl 32) (le_refl 32) (le_refl 32) sx sy hsx hsy
  · intro i hi j hj
    simp only [bright_block]
    rw [if_pos (by omega), if_pos (by omega)]
  · intro qy qx _ _ hb
    refine ⟨0, by omega, 0, by omega, ?_⟩
    unfold row_major_before at hb
    simp only [bright_block]
    rw [if_neg (by omega), if_pos (by omega)]
    omega

theorem bright_block_example_witness :
    (3 : Nat) ≤ 16 ∧ (2 : Nat) ≤ 16 ∧
    (get_block_difference (bright_block 0 0) (bright_block 3 2) 0).map
        get_movement_vector
      = some ⟨3, 2⟩ :=
  ⟨by decide, by decide, bright_block_example 3 2 (by decide) (by decide)⟩

/-- C3: zero motion on identical input.  For an image of width and height at
least 32 and an identical copy of it (same dimensions, same samples), block
index 0 yields the vector `(0, 0)`. -/
theorem identical_images_zero_motion (image copy : ImageData)
    (hw : 32 ≤ image.width) (hh : 32 ≤ image.height)
    (hcw : copy.width = image.width) (hch : copy.height = image.height)
    (hsame : ∀ r < image.height, ∀ c < image.width, copy.data r c = image.data r c) :
    (get_block_difference image copy 0).map get_movement_vector = some ⟨0, 0⟩ := by
  have h := block0_first_match image copy hw hh (by omega) (by omega) 0 0 (by omega)
    (by omega)
    (by
      intro i hi j hj
      simp only [Nat.zero_add]
      exact hsame i (by omega) j (by omega))
    (by
      intro qy qx _ _ hb
      unfold row_major_before at hb
      omega)
  simpa using h

theorem identical_images_zero_motion_witness :
    32 ≤ (bright_block 4 9).width ∧ 32 ≤ (bright_block 4 9).height ∧
    (get_block_difference (bright_block 4 9) (bright_block 4 9) 0).map
        get_movement_vector
      = some ⟨0, 0⟩ :=
  ⟨by decide, by decide,
    identical_images_zero_motion (bright_block 4 9) (bright_block 4 9) (by decide)
      (by decide) rfl rfl (fun _ _ _ _ => rfl)⟩

/-- C4: minimum selection with tie-break.  For a map with at least one cell,
`get_movement_vector` returns `(c - center_x, r - center_y)` where `(r, c)`
is a cell whose score is at most every score of the map and strictly below
the score of every cell that precedes it in row-major order; and when no
cell is strictly smaller than cell `(0, 0)` the result is
`(-center_x, -center_y)`. -/
theorem get_movement_vector_first_minimum (bd : BlockData)
    (hw : 0 < bd.width) (hh : 0 < bd.height) :
    (∃ r c, r < bd.height ∧ c < bd.width ∧
      get_movement_vector bd
        = ⟨(c : Int) - (bd.center_x : Int), (r : Int) - (bd.center_y : Int)⟩ ∧
      (∀ i j, i < bd.height → j < bd.width → bd.data r c ≤ bd.data i j) ∧
      (∀ i j, i < bd.height → j < bd.width → (i < r ∨ (i = r ∧ j < c)) →
        bd.data r c < bd.data i j)) ∧
    ((∀ i j, i < bd.height → j < bd.width → ¬ bd.data i j < bd.data 0 0) →
      get_movement_vector bd = ⟨-(bd.center_x : Int), -(bd.center_y : Int)⟩) := by
  obtain ⟨b2, b1, bmin, bfirst⟩ := best_cell_spec bd hw hh
  refine ⟨⟨(best_cell bd).2, (best_cell bd).1, b2, b1, rfl, bmin, bfirst⟩, ?_⟩
  intro hnone
  have h0 : best_cell bd = (0, 0) := by
    apply best_cell_unique bd 0 0 hh hw
    · intro i j hi hj
      exact not_lt.mp (hnone i j hi hj)
    · intro i j _ _ hb
      unfold row_major_before at hb
      omega
  simp only [get_movement_vector, h0]
  simp

theorem get_movement_vector_first_minimum_witness :
    0 < tie_map.width ∧ 0 < tie_map.height ∧
    (∃ r c, r < tie_map.height ∧ c < tie_map.width ∧
      get_movement_vector tie_map
        = ⟨(c : Int) - (tie_map.center_x : Int), (r : Int) - (tie_map.center_y : Int)⟩ ∧
      (∀ i j, i < tie_map.height → j < tie_map.width →
        tie_map.data r c ≤ tie_map.data i j) ∧
      (∀ i j, i < tie_map.height → j < tie_map.width → (i < r ∨ (i = r ∧ j < c)) →
        tie_map.data r c < tie_map.data i j)) :=
  ⟨by decide, by decide,
    (get_movement_vector_first_minimum tie_map (by decide) (by decide)).1⟩

/-- C5 (the code at a failing input): for a 64-sample-wide image and block
index 1 the origin used by `get_block_difference` is the pixel `(1, 0)`, not
`(16, 0)`; accordingly the returned map has `center_x = 1` and 18 rows. -/
theorem block_origin_not_scaled :
    block_origin image64 1 = some (1, 0) ∧
    block_origin image64 1
      ≠ some (16 * (1 % (image64.width / 16)), 16 * (1 / (image64.width / 16))) ∧
    (get_block_difference image64 image64 1).map (fun m => (m.center_x, m.height))
      = some (1, 18) := by
  have horigin : block_origin image64 1 = some (1, 0) := by decide
  have hwin : search_window image64 1 0 =
      { left_offset := 1, right_offset := 16, up_offset := 0, down_offset := 16,
        x_start := 0, y_start := 0 } := by
    rfl
  refine ⟨horigin, by decide, ?_⟩
  rw [get_block_difference_eq image64 image64 1 1 0 horigin, hwin]
  simp only [reads_in_range_iff]
  rw [if_pos]
  · rfl
  · refine ⟨by decide, ?_⟩
    intro i hi j hj
    have h1 : image64.width = 64 := rfl
    have h2 : image64.height = 64 := rfl
    omega

/-- C6: search-window geometry.  For an origin `(ox, oy)` inside the image the
offsets are `min(16, ox)`, `min(16, oy)`, `min(16, W - ox - 1)` and
`min(16, H - oy - 1)`, the window starts at `(ox - left, oy - up)`, every map
returned for that origin has `height = left + right + 1`,
`width = up + down + 1`, `center_x = left` and `center_y = up`, and an origin
within 16 samples of an edge makes the corresponding dimension smaller than
33 and the centre equal to the clipped offset. -/
theorem search_window_geometry (reference : ImageData) (ox oy : Nat)
    (hx : ox < reference.width) (hy : oy < reference.height) :
    (search_window reference ox oy).left_offset = min 16 ox ∧
    (search_window reference ox oy).up_offset = min 16 oy ∧
    (search_window reference ox oy).right_offset = min 16 (reference.width - ox - 1) ∧
    (search_window reference ox oy).down_offset = min 16 (reference.height - oy - 1) ∧
    (search_window reference ox oy).x_start
      = ox - (search_window reference ox oy).left_offset ∧
    (search_window reference ox oy).y_start
      = oy - (search_window reference ox oy).up_offset ∧
    (∀ interesting idx m, block_origin reference idx = some (ox, oy) →
      get_block_difference reference interesting idx = some m →
      m.height = (search_window reference ox oy).left_offset
                  + (search_window reference ox oy).right_offset + 1 ∧
      m.width = (search_window reference ox oy).up_offset
                  + (search_window reference ox oy).down_offset + 1 ∧
      m.center_x = (search_window reference ox oy).left_offset ∧
      m.center_y = (search_window reference ox oy).up_offset ∧
      ((ox < 16 ∨ reference.width - ox - 1 < 16) → m.height < 33) ∧
      ((oy < 16 ∨ reference.height - oy - 1 < 16) → m.width < 33) ∧
      (ox < 16 → m.center_x = ox) ∧
      (oy < 16 → m.center_y = oy)) := by
  have hl := search_window_left reference ox oy
  have hu := search_window_up reference ox oy
  have hr := search_window_right reference ox oy hx
  have hd := search_window_down reference ox oy hy
  refine ⟨hl, hu, hr, hd, search_window_x_start reference ox oy,
    search_window_y_start reference ox oy, ?_⟩
  intro interesting idx m horigin hm
  rw [get_block_difference_eq reference interesting idx ox oy horigin] at hm
  split_ifs at hm
  have hm' := (Option.some.inj hm).symm
  have h1 : m.height = (search_window reference ox oy).left_offset
      + (search_window reference ox oy).right_offset + 1 := by rw [hm']; rfl
  have h2 : m.width = (search_window reference ox oy).down_offset
      + (search_window reference ox oy).up_offset + 1 := by rw [hm']; rfl
  have h3 : m.center_x = (search_window reference ox oy).left_offset := by rw [hm']; rfl
  have h4 : m.center_y = (search_window reference ox oy).up_offset := by rw [hm']; rfl
  refine ⟨h1, by omega, h3, h4, ?_, ?_, ?_, ?_⟩ <;> intro _ <;> omega

theorem search_window_geometry_witness :
    1 < image64.width ∧ 0 < image64.height ∧
    block_origin image64 1 = some (1, 0) ∧
    (search_window image64 1 0).left_offset = min 16 1 ∧
    (search_window image64 1 0).right_offset = min 16 (image64.width - 1 - 1) ∧
    (∃ m, get_block_difference image64 image64 1 = some m ∧
      m.height = 18 ∧ m.width = 17 ∧ m.center_x = 1 ∧ m.center_y = 0) := by
  have horigin : block_origin image64 1 = some (1, 0) := by decide
  have hgeo := search_window_geometry image64 1 0 (by decide) (by decide)
  have hwin : search_window image64 1 0 =
      { left_offset := 1, right_offset := 16, up_offset := 0, down_offset := 16,
        x_start := 0, y_start := 0 } := by
    rfl
  have hsome : (get_block_difference image64 image64 1).isSome := by
    rw [get_block_difference_isSome_iff image64 image64 1 1 0 horigin, hwin]
    simp only [reads_in_range_iff]
    refine ⟨by decide, ?_⟩
    intro i hi j hj
    have h1 : image64.width = 64 := rfl
    have h2 : image64.height = 64 := rfl
    omega
  obtain ⟨m, hm⟩ := Option.isSome_iff_exists.mp hsome
  obtain ⟨h1, h2, h3, h4, -⟩ := hgeo.2.2.2.2.2.2 image64 1 m horigin hm
  rw [hwin] at h1 h2 h3 h4
  exact ⟨by decide, by decide, horigin, hgeo.1, hgeo.2.2.1, m, hm, h1, h2, h3, h4⟩

/-- C7 (the code at a failing input): for two 16x16 images and block index 0,
which is below `(16/16) * (16/16)`, the reference block is read in range but
the right offset is 15, so the candidate of cell `(0, 1)` starts at column 1
and reads column 16: `get_block_difference` leaves the image. -/
theorem search_window_leaves_image :
    16 ≤ zero16.width ∧ 16 ≤ zero16.height ∧
    0 < (zero16.width / 16) * (zero16.height / 16) ∧
    block_origin zero16 0 = some (0, 0) ∧
    reads_in_range zero16 0 0 ∧
    (search_window zero16 0 0).right_offset = 15 ∧
    ¬ reads_in_range zero16 ((search_window zero16 0 0).x_start + 1)
        ((search_window zero16 0 0).y_start + 0) ∧
    get_block_difference zero16 zero16 0 = none := by
  have horigin : block_origin zero16 0 = some (0, 0) := by decide
  have hwin : search_window zero16 0 0 =
      { left_offset := 0, right_offset := 15, up_offset := 0, down_offset := 15,
        x_start := 0, y_start := 0 } := by
    rfl
  have hbad : ¬ reads_in_range zero16 (0 + 1) (0 + 0) := by
    rw [reads_in_range_iff]
    have h1 : zero16.width = 16 := rfl
    omega
  refine ⟨by decide, by decide, by decide, horigin, ?_, by rw [hwin], by rw [hwin]; exact hbad,
    ?_⟩
  · rw [reads_in_range_iff]
    have h1 : zero16.width = 16 := rfl
    have h2 : zero16.height = 16 := rfl
    omega
  · rw [get_block_difference_eq zero16 zero16 0 0 0 horigin, hwin]
    rw [if_neg]
    rintro ⟨_, h⟩
    exact hbad (h 0 (by simp) 1 (by simp))

/-- C9: the metric of a block with an identical copy is zero.  For a block
`b` of positive area and a block `b'` with the same dimensions and the same
samples, `get_block_mad b b' = 0`. -/
theorem get_block_mad_self (b b' : ImageData)
    (_hw : 0 < b.width) (_hh : 0 < b.height)
    (hcw : b'.width = b.width) (hch : b'.height = b.height)
    (hsame : ∀ i < b.height, ∀ j < b.width, b'.data i j = b.data i j) :
    get_block_mad b b' = 0 := by
  rw [get_block_mad_eq, hcw, hch, Nat.min_self, Nat.min_self]
  have h0 : mad_accumulate b b' b.height b.width = 0 := by
    rw [mad_accumulate_eq_zero_iff]
    intro i hi j hj
    exact (hsame i hi j hj).symm
  rw [h0]
  simp

theorem get_block_mad_self_witness :
    0 < block_a.width ∧ 0 < block_a.height ∧ get_block_mad block_a block_a = 0 :=
  ⟨by decide, by decide,
    get_block_mad_self block_a block_a (by decide) (by decide) rfl rfl
      (fun _ _ _ _ => rfl)⟩

/-- C10: the metric is symmetric.  For two blocks of positive area, of equal
or different dimensions, `get_block_mad a b = get_block_mad b a`. -/
theorem get_block_mad_symm (a b : ImageData)
    (_haw : 0 < a.width) (_hah : 0 < a.height)
    (_hbw : 0 < b.width) (_hbh : 0 < b.height) :
    get_block_mad a b = get_block_mad b a := by
  rw [get_block_mad_eq, get_block_mad_eq, mad_accumulate_comm a b,
    Nat.min_comm a.height b.height, Nat.min_comm a.width b.width]

theorem get_block_mad_symm_witness :
    0 < block_a.width ∧ 0 < block_a.height ∧ 0 < block_b.width ∧ 0 < block_b.height ∧
    block_a.width ≠ block_b.width ∧
    get_block_mad block_a block_b = get_block_mad block_b block_a :=
  ⟨by decide, by decide, by decide, by decide, by decide,
    get_block_mad_symm block_a block_b (by decide) (by decide) (by decide) (by decide)⟩

/-! ## The centre of the map -/

/-- For images of equal dimensions, a map that `get_block_difference` returns
contains its centre cell. -/
theorem center_in_map (reference interesting : ImageData) (idx ox oy : Nat)
    (hw : interesting.width = reference.width)
    (hh : interesting.height = reference.height)
    (horigin : block_origin reference idx = some (ox, oy))
    (hsome : (get_block_difference reference interesting idx).isSome) :
    (search_window reference ox oy).left_offset
      < (search_window reference ox oy).down_offset
          + (search_window reference ox oy).up_offset + 1 ∧
    (search_window reference ox oy).up_offset
      < (search_window reference ox oy).left_offset
          + (search_window reference ox oy).right_offset + 1 := by
  obtain ⟨href, hcand⟩ :=
    (get_block_difference_isSome_iff reference interesting idx ox oy horigin).mp hsome
  rw [reads_in_range_iff] at href
  have hl := search_window_left reference ox oy
  have hu := search_window_up reference ox oy
  have hr := search_window_right reference ox oy (by omega)
  have hd := search_window_down reference ox oy (by omega)
  have hxs := search_window_x_start reference ox oy
  have hys := search_window_y_start reference ox oy
  have hlast := hcand ((search_window reference ox oy).left_offset
      + (search_window reference ox oy).right_offset) (by omega)
    ((search_window reference ox oy).down_offset
      + (search_window reference ox oy).up_offset) (by omega)
  rw [reads_in_range_iff] at hlast
  omega

/-- C11 (the code at a failing input): for two 272x16 images and block index
16, which is below `(272/16) * (16/16) = 17`, the origin is `(16, 0)`, the
reference block is read in range, and the map that the code sets up has
`center_x = 16` and `width = 16`, so the centre column is not a column of
the map; filling the map then leaves the image. -/
theorem center_outside_map :
    16 ≤ wide_image.width ∧ 16 ≤ wide_image.height ∧
    16 < (wide_image.width / 16) * (wide_image.height / 16) ∧
    block_origin wide_image 16 = some (16, 0) ∧
    reads_in_range wide_image 16 0 ∧
    (difference_map (copy_block wide_image 16 0) wide_image
      (search_window wide_image 16 0)).center_x = 16 ∧
    (difference_map (copy_block wide_image 16 0) wide_image
      (search_window wide_image 16 0)).width = 16 ∧
    (difference_map (copy_block wide_image 16 0) wide_image
      (search_window wide_image 16 0)).height = 33 ∧
    get_block_difference wide_image wide_image 16 = none := by
  have horigin : block_origin wide_image 16 = some (16, 0) := by decide
  have hwin : search_window wide_image 16 0 =
      { left_offset := 16, right_offset := 16, up_offset := 0, down_offset := 15,
        x_start := 0, y_start := 0 } := by
    rfl
  have h1 : wide_image.width = 272 := rfl
  have h2 : wide_image.height = 16 := rfl
  have hbad : ¬ reads_in_range wide_image (0 + 0) (0 + 1) := by
    rw [reads_in_range_iff]
    omega
  refine ⟨by decide, by decide, by decide, horigin, ?_, by rw [hwin]; rfl,
    by rw [hwin]; rfl, by rw [hwin]; rfl, ?_⟩
  · rw [reads_in_range_iff]
    omega
  · rw [get_block_difference_eq wide_image wide_image 16 16 0 horigin, hwin]
    rw [if_neg]
    rintro ⟨_, h⟩
    exact hbad (h 1 (by simp) 0 (by simp))

/-- C17 (the code at a failing input): for two 64x64 images and block index 1
the origin `(1, 0)` lies inside the image, every read is in range and
`down_offset = 16`, yet the map has 18 rows and the reported vector is
`(0, 17)`: the vertical displacement exceeds both `down_offset` and the
nominal radius 16. -/
theorem displacement_exceeds_radius :
    (bright_rows 17).width = (bright_rows 0).width ∧
    (bright_rows 17).height = (bright_rows 0).height ∧
    block_origin (bright_rows 0) 1 = some (1, 0) ∧
    1 < (bright_rows 0).width ∧ 0 < (bright_rows 0).height ∧
    (search_window (bright_rows 0) 1 0).down_offset = 16 ∧
    (get_block_difference (bright_rows 0) (bright_rows 17) 1).map get_movement_vector
      = some ⟨0, 17⟩ := by
  have horigin : block_origin (bright_rows 0) 1 = some (1, 0) := by decide
  have hwin : search_window (bright_rows 0) 1 0 =
      { left_offset := 1, right_offset := 16, up_offset := 0, down_offset := 16,
        x_start := 0, y_start := 0 } := by
    rfl
  have h1 : (bright_rows 0).width = 64 := rfl
  have h2 : (bright_rows 0).height = 64 := rfl
  have h3 : (bright_rows 17).width = 64 := rfl
  have h4 : (bright_rows 17).height = 64 := rfl
  have hsome : (get_block_difference (bright_rows 0) (bright_rows 17) 1).isSome := by
    rw [get_block_difference_isSome_iff _ _ 1 1 0 horigin, hwin]
    simp only [reads_in_range_iff]
    refine ⟨by omega, ?_⟩
    intro i hi j hj
    omega
  have h := movement_vector_first_match (bright_rows 0) (bright_rows 17) 1 1 0 17 1
    horigin hsome
  rw [hwin] at h
  simp only [Nat.zero_add] at h
  refine ⟨rfl, rfl, horigin, by decide, by decide, by rw [hwin], ?_⟩
  have h' := h (by omega) (by omega)
    (by
      intro i hi j hj
      simp only [bright_rows]
      rw [if_pos (by omega), if_pos (by omega)])
    (by
      intro r' c' hr' hc' hb
      refine ⟨0, by omega, 0, by omega, ?_⟩
      unfold row_major_before at hb
      simp only [bright_rows]
      rw [if_neg (by omega), if_pos (by omega)]
      omega)
  rw [h']
  norm_num

/-! ## The filling loops -/

theorem fill_grid_inner_some {α : Type} (w : Nat) (cell : Nat → Nat → Option α)
    (init : Nat → Nat → α) (i : Nat) (st : Option (Nat → Nat → α))
    (hcell : ∀ j < w, ∃ v, cell i j = some v)
    (hst : ∃ g, st = some g ∧ (∀ r c, scanned w i 0 r c → cell r c = some (g r c)) ∧
      (∀ r c, ¬ scanned w i 0 r c → g r c = init r c)) :
    ∃ g, (List.range w).foldl (fun st j =>
        match st, cell i j with
        | some data, some v => some (fun r c => if r = i ∧ c = j then v else data r c)
        | _, _ => none) st = some g ∧
      (∀ r c, scanned w (i + 1) 0 r c → cell r c = some (g r c)) ∧
      (∀ r c, ¬ scanned w (i + 1) 0 r c → g r c = init r c) := by
  have hiff : ∀ r c, scanned w (i + 1) 0 r c ↔ scanned w i w r c := by
    intro r c
    unfold scanned
    omega
  simp only [hiff]
  refine foldl_range_invariant (fun j (st : Option (Nat → Nat → α)) => ∃ g, st = some g ∧
    (∀ r c, scanned w i j r c → cell r c = some (g r c)) ∧
    (∀ r c, ¬ scanned w i j r c → g r c = init r c)) _ w st ?_ ?_
  · exact hst
  · rintro j hj st ⟨g, rfl, h1, h2⟩
    obtain ⟨v, hv⟩ := hcell j hj
    refine ⟨fun r c => if r = i ∧ c = j then v else g r c, by rw [hv], ?_, ?_⟩
    · intro r c hs
      show cell r c = some (if r = i ∧ c = j then v else g r c)
      by_cases hrc : r = i ∧ c = j
      · rw [if_pos hrc, hrc.1, hrc.2, hv]
      · rw [if_neg hrc]
        apply h1
        unfold scanned at hs ⊢
        omega
    · intro r c hs
      show (if r = i ∧ c = j then v else g r c) = init r c
      have hrc : ¬ (r = i ∧ c = j) := by
        rintro ⟨rfl, rfl⟩
        apply hs
        unfold scanned
        omega
      rw [if_neg hrc]
      apply h2
      intro hs'
      apply hs
      unfold scanned at hs' ⊢
      omega

/-- When every cell can be computed, the filling loops return a grid that
holds the value of every cell and is untouched elsewhere. -/
theorem fill_grid_some {α : Type} (h w : Nat) (cell : Nat → Nat → Option α)
    (init : Nat → Nat → α) (hcell : ∀ i < h, ∀ j < w, ∃ v, cell i j = some v) :
    ∃ g, fill_grid h w cell init = some g ∧
      (∀ i < h, ∀ j < w, cell i j = some (g i j)) ∧
      (∀ r c, ¬ (r < h ∧ c < w) → g r c = init r c) := by
  have key : ∃ g, fill_grid h w cell init = some g ∧
      (∀ r c, scanned w h 0 r c → cell r c = some (g r c)) ∧
      (∀ r c, ¬ scanned w h 0 r c → g r c = init r c) := by
    unfold fill_grid
    refine foldl_range_invariant (fun i (st : Option (Nat → Nat → α)) => ∃ g, st = some g ∧
      (∀ r c, scanned w i 0 r c → cell r c = some (g r c)) ∧
      (∀ r c, ¬ scanned w i 0 r c → g r c = init r c)) _ h (some init) ?_ ?_
    · refine ⟨init, rfl, ?_, fun _ _ _ => rfl⟩
      intro r c hs
      unfold scanned at hs
      omega
    · intro i hi st hst
      exact fill_grid_inner_some w cell init i st (hcell i hi) hst
  obtain ⟨g, hg, h1, h2⟩ := key
  refine ⟨g, hg, ?_, ?_⟩
  · intro i hi j hj
    apply h1
    unfold scanned
    omega
  · intro r c hrc
    apply h2
    unfold scanned
    omega

/-- When some cell cannot be computed, the filling loops return `none`. -/
theorem fill_grid_none {α : Type} (h w : Nat) (cell : Nat → Nat → Option α)
    (init : Nat → Nat → α) (i j : Nat) (hi : i < h) (hj : j < w)
    (hnone : cell i j = none) :
    fill_grid h w cell init = none := by
  have key : scanned w h 0 i j → fill_grid h w cell init = none := by
    unfold fill_grid
    refine foldl_range_invariant
      (fun k (st : Option (Nat → Nat → α)) => scanned w k 0 i j → st = none) _ h
      (some init) ?_ ?_
    · intro hs
      unfold scanned at hs
      omega
    · intro k _ st hst hs
      have hiff : scanned w (k + 1) 0 i j ↔ scanned w k w i j := by
        unfold scanned
        omega
      rw [hiff] at hs
      revert hs
      refine foldl_range_invariant
        (fun l (st : Option (Nat → Nat → α)) => scanned w k l i j → st = none) _ w st
        ?_ ?_
      · exact hst
      · intro l _ st' hst' hs
        by_cases hrc : i = k ∧ j = l
        · rw [← hrc.1, ← hrc.2, hnone]
          cases st' <;> rfl
        · have hold : scanned w k l i j := by
            unfold scanned at hs ⊢
            omega
          rw [hst' hold]
  apply key
  unfold scanned
  omega

theorem read_sample_isSome (image : ImageData) (r c : Nat) :
    (∃ v, read_sample image r c = some v) ↔ r < image.height ∧ c < image.width := by
  unfold read_sample
  split_ifs with h
  · simp [h]
  · simp [h]

/-- The written-out loops of `get_block_from_origin` succeed exactly when the
closed form does, and then return a 16x16 block holding the same samples. -/
theorem get_block_from_origin_loops_spec (image : ImageData) (ox oy : Nat)
    (fresh : Nat → Nat → Nat) :
    (reads_in_range image ox oy →
      ∃ b, get_block_from_origin_loops image ox oy fresh = some b ∧
        b.width = 16 ∧ b.height = 16 ∧
        ∀ i < 16, ∀ j < 16, b.data i j = (copy_block image ox oy).data i j) ∧
    (¬ reads_in_range image ox oy →
      get_block_from_origin_loops image ox oy fresh = none) := by
  constructor
  · intro hin
    obtain ⟨g, hg, hcells, -⟩ := fill_grid_some BLOCK_HEIGHT BLOCK_WIDTH
      (fun i j => read_sample image (oy + i) (ox + j)) fresh
      (fun i hi j hj => (read_sample_isSome image _ _).mpr (hin i hi j hj))
    refine ⟨_, by rw [get_block_from_origin_loops, hg]; rfl, rfl, rfl, ?_⟩
    intro i hi j hj
    have h := hcells i hi j hj
    simp only [read_sample] at h
    rw [if_pos (hin i hi j hj)] at h
    exact (Option.some.inj h).symm
  · intro hout
    unfold reads_in_range at hout
    push_neg at hout
    obtain ⟨i, hi, j, hj, hbad⟩ := hout
    have hnone : read_sample image (oy + i) (ox + j) = none := by
      unfold read_sample
      rw [if_neg]
      intro h
      exact absurd h.2 (not_lt.mpr (hbad h.1))
    rw [get_block_from_origin_loops,
      fill_grid_none BLOCK_HEIGHT BLOCK_WIDTH _ fresh i j hi hj hnone]
    rfl

/-- The metric only reads the samples of the common rectangle. -/
theorem get_block_mad_congr (a a' b b' : ImageData)
    (haw : a'.width = a.width) (hah : a'.height = a.height)
    (hbw : b'.width = b.width) (hbh : b'.height = b.height)
    (ha : ∀ i < min a.height b.height, ∀ j < min a.width b.width,
      a'.data i j = a.data i j)
    (hb : ∀ i < min a.height b.height, ∀ j < min a.width b.width,
      b'.data i j = b.data i j) :
    get_block_mad a' b' = get_block_mad a b := by
  rw [get_block_mad_eq, get_block_mad_eq, haw, hah, hbw, hbh, mad_accumulate_eq_sum,
    mad_accumulate_eq_sum]
  congr 2
  apply Finset.sum_congr rfl
  intro i hi
  apply Finset.sum_congr rfl
  intro j hj
  rw [ha i (Finset.mem_range.mp hi) j (Finset.mem_range.mp hj),
    hb i (Finset.mem_range.mp hi) j (Finset.mem_range.mp hj)]

/-- The score of two blocks extracted by the written-out loops is the score
of the closed-form blocks. -/
theorem get_block_mad_loops_blocks (a b : ImageData) (ax ay bx bY : Nat)
    (ba bb : ImageData)
    (haw : ba.width = 16) (hah : ba.height = 16)
    (hbw : bb.width = 16) (hbh : bb.height = 16)
    (ha : ∀ i < 16, ∀ j < 16, ba.data i j = (copy_block a ax ay).data i j)
    (hb : ∀ i < 16, ∀ j < 16, bb.data i j = (copy_block b bx bY).data i j) :
    get_block_mad ba bb = get_block_mad (copy_block a ax ay) (copy_block b bx bY) := by
  apply get_block_mad_congr _ _ _ _ haw hah hbw hbh
  · intro i hi j hj
    have h1 : (copy_block a ax ay).height = 16 := rfl
    have h2 : (copy_block a ax ay).width = 16 := rfl
    have h3 : (copy_block b bx bY).height = 16 := rfl
    have h4 : (copy_block b bx bY).width = 16 := rfl
    exact ha i (by omega) j (by omega)
  · intro i hi j hj
    have h1 : (copy_block a ax ay).height = 16 := rfl
    have h2 : (copy_block a ax ay).width = 16 := rfl
    have h3 : (copy_block b bx bY).height = 16 := rfl
    have h4 : (copy_block b bx bY).width = 16 := rfl
    exact hb i (by omega) j (by omega)

/-- The written-out loops of `get_block_difference` return a map exactly
when every extraction is in range, and that map has the dimensions, the
centre and the cells of the closed form. -/
theorem get_block_difference_loops_spec (reference interesting : ImageData)
    (idx ox oy : Nat) (fresh_block : Nat → Nat → Nat) (fresh_map : Nat → Nat → ℚ)
    (horigin : block_origin reference idx = some (ox, oy)) :
    ((reads_in_range reference ox oy ∧
        ∀ i < (search_window reference ox oy).left_offset
                + (search_window reference ox oy).right_offset + 1,
          ∀ j < (search_window reference ox oy).down_offset
                + (search_window reference ox oy).up_offset + 1,
            reads_in_range interesting ((search_window reference ox oy).x_start + j)
              ((search_window reference ox oy).y_start + i)) →
      ∃ m, get_block_difference_loops reference interesting idx fresh_block fresh_map
          = some m ∧
        m.height = (search_window reference ox oy).left_offset
                    + (search_window reference ox oy).right_offset + 1 ∧
        m.width = (search_window reference ox oy).down_offset
                    + (search_window reference ox oy).up_offset + 1 ∧
        m.center_x = (search_window reference ox oy).left_offset ∧
        m.center_y = (search_window reference ox oy).up_offset ∧
        ∀ i < m.height, ∀ j < m.width,
          m.data i j = (difference_map (copy_block reference ox oy) interesting
            (search_window reference ox oy)).data i j) ∧
    (get_block_difference reference interesting idx = none →
      get_block_difference_loops reference interesting idx fresh_block fresh_map
        = none) := by
  constructor
  · rintro ⟨href, hcand⟩
    obtain ⟨refb, hrefb, hrw, hrh, hrd⟩ :=
      (get_block_from_origin_loops_spec reference ox oy fresh_block).1 href
    have hcell : ∀ i < (search_window reference ox oy).left_offset
          + (search_window reference ox oy).right_offset + 1,
        ∀ j < (search_window reference ox oy).down_offset
          + (search_window reference ox oy).up_offset + 1,
        ∃ v, (get_block_from_origin_loops interesting
            ((search_window reference ox oy).x_start + j)
            ((search_window reference ox oy).y_start + i) fresh_block).map
          (fun t_block => get_block_mad refb t_block) = some v ∧
          v = (difference_map (copy_block reference ox oy) interesting
            (search_window reference ox oy)).data i j := by
      intro i hi j hj
      obtain ⟨cb, hcb, hcw, hch, hcd⟩ :=
        (get_block_from_origin_loops_spec interesting _ _ fresh_block).1 (hcand i hi j hj)
      refine ⟨get_block_mad refb cb, by rw [hcb]; rfl, ?_⟩
      exact get_block_mad_loops_blocks reference interesting ox oy _ _ refb cb hrw hrh hcw
        hch hrd hcd
    obtain ⟨g, hg, hcells, -⟩ := fill_grid_some _ _
      (fun i j =>
        (get_block_from_origin_loops interesting
            ((search_window reference ox oy).x_start + j)
            ((search_window reference ox oy).y_start + i) fresh_block).map
          (fun t_block => get_block_mad refb t_block))
      fresh_map (fun i hi j hj => (hcell i hi j hj).imp fun _ h => h.1)
    refine ⟨_, by
      unfold get_block_difference_loops
      rw [horigin]
      simp only [hrefb, hg]
      rfl, rfl, rfl, rfl, rfl, ?_⟩
    intro i hi j hj
    obtain ⟨v, hv, hveq⟩ := hcell i hi j hj
    have h := hcells i hi j hj
    simp only at h
    rw [hv] at h
    rw [← hveq]
    exact (Option.some.inj h).symm
  · intro hnone
    rw [get_block_difference_eq reference interesting idx ox oy horigin] at hnone
    split_ifs at hnone with hcond
    unfold get_block_difference_loops
    rw [horigin]
    simp only
    by_cases href : reads_in_range reference ox oy
    · obtain ⟨refb, hrefb, -⟩ :=
        (get_block_from_origin_loops_spec reference ox oy fresh_block).1 href
      rw [hrefb]
      simp only
      have hex : ∃ i, i < (search_window reference ox oy).left_offset
            + (search_window reference ox oy).right_offset + 1 ∧
          ∃ j, j < (search_window reference ox oy).down_offset
            + (search_window reference ox oy).up_offset + 1 ∧
          ¬ reads_in_range interesting ((search_window reference ox oy).x_start + j)
            ((search_window reference ox oy).y_start + i) := by
        by_contra hcon
        push_neg at hcon
        exact hcond ⟨href, hcon⟩
      obtain ⟨i, hi, j, hj, hbad⟩ := hex
      have hn : (get_block_from_origin_loops interesting
            ((search_window reference ox oy).x_start + j)
            ((search_window reference ox oy).y_start + i) fresh_block).map
          (fun t_block => get_block_mad refb t_block) = none := by
        rw [(get_block_from_origin_loops_spec interesting _ _ fresh_block).2 hbad]
        rfl
      rw [fill_grid_none _ _
        (fun i j =>
          (get_block_from_origin_loops interesting
              ((search_window reference ox oy).x_start + j)
              ((search_window reference ox oy).y_start + i) fresh_block).map
            (fun t_block => get_block_mad refb t_block))
        fresh_map i j hi hj hn]
      rfl
    · rw [(get_block_from_origin_loops_spec reference ox oy fresh_block).2 href]

/-! ## Claims on the extraction and on the cells of the map -/

/-- C12: block extraction copies the sub-region.  When the rectangle
`[ox, ox + 16) x [oy, oy + 16)` lies within the image, `get_block_from_origin`
(its written-out loops, whatever the fresh memory holds, and its closed
form alike) returns a block of width 16 and height 16 whose sample at row
`i`, column `j` is `image[oy + i][ox + j]`.  The image is an immutable value
that the function only reads. -/
theorem get_block_from_origin_copies (image : ImageData) (ox oy : Nat)
    (fresh : Nat → Nat → Nat)
    (hx : ox + 16 ≤ image.width) (hy : oy + 16 ≤ image.height) :
    (∃ b, get_block_from_origin_loops image ox oy fresh = some b ∧
      b.width = 16 ∧ b.height = 16 ∧
      ∀ i < 16, ∀ j < 16, b.data i j = image.data (oy + i) (ox + j)) ∧
    (∃ b, get_block_from_origin image ox oy = some b ∧
      b.width = 16 ∧ b.height = 16 ∧
      ∀ i < 16, ∀ j < 16, b.data i j = image.data (oy + i) (ox + j)) := by
  have hin : reads_in_range image ox oy := (reads_in_range_iff image ox oy).mpr ⟨hy, hx⟩
  constructor
  · obtain ⟨b, hb, hw, hh, hd⟩ := (get_block_from_origin_loops_spec image ox oy fresh).1 hin
    exact ⟨b, hb, hw, hh, fun i hi j hj => hd i hi j hj⟩
  · refine ⟨copy_block image ox oy, ?_, rfl, rfl, fun _ _ _ _ => rfl⟩
    unfold get_block_from_origin
    rw [if_pos hin]

theorem get_block_from_origin_copies_witness :
    3 + 16 ≤ image64.width ∧ 5 + 16 ≤ image64.height ∧
    (∃ b, get_block_from_origin_loops image64 3 5 (fun _ _ => 0) = some b ∧
      b.width = 16 ∧ b.height = 16 ∧
      ∀ i < 16, ∀ j < 16, b.data i j = image64.data (5 + i) (3 + j)) :=
  ⟨by decide, by decide,
    (get_block_from_origin_copies image64 3 5 (fun _ _ => 0) (by decide) (by decide)).1⟩

/-- C16: map cells are the scores of the candidates.  When the block index
gives the origin `(ox, oy)` and every extraction is in bounds,
`get_block_difference` (its written-out loops and its closed form alike)
returns a map whose cell at row `i < height`, column `j < width` is
`get_block_mad` of the reference block, extracted at `(ox, oy)`, and of the
candidate block of the interesting image at `(x_start + j, y_start + i)`.
The cell at row `center_y`, column `center_x` is the candidate at
`(ox, oy)`, the zero displacement, and it is a cell of the map when the two
images have equal dimensions. -/
theorem map_cells_are_scores (reference interesting : ImageData) (idx ox oy : Nat)
    (fresh_block : Nat → Nat → Nat) (fresh_map : Nat → Nat → ℚ)
    (horigin : block_origin reference idx = some (ox, oy))
    (href : reads_in_range reference ox oy)
    (hcand : ∀ i < (search_window reference ox oy).left_offset
                  + (search_window reference ox oy).right_offset + 1,
      ∀ j < (search_window reference ox oy).down_offset
                  + (search_window reference ox oy).up_offset + 1,
        reads_in_range interesting ((search_window reference ox oy).x_start + j)
          ((search_window reference ox oy).y_start + i)) :
    ∃ m m0 refb,
      get_block_difference_loops reference interesting idx fresh_block fresh_map
        = some m ∧
      get_block_difference reference interesting idx = some m0 ∧
      get_block_from_origin reference ox oy = some refb ∧
      m0.height = m.height ∧ m0.width = m.width ∧
      m0.center_x = m.center_x ∧ m0.center_y = m.center_y ∧
      (∀ i < m.height, ∀ j < m.width,
        ∃ candidate,
          get_block_from_origin interesting
            ((search_window reference ox oy).x_start + j)
            ((search_window reference ox oy).y_start + i) = some candidate ∧
          m.data i j = get_block_mad refb candidate ∧
          m0.data i j = get_block_mad refb candidate) ∧
      (search_window reference ox oy).x_start + m.center_x = ox ∧
      (search_window reference ox oy).y_start + m.center_y = oy ∧
      (interesting.width = reference.width → interesting.height = reference.height →
        m.center_y < m.height ∧ m.center_x < m.width) := by
  obtain ⟨m, hm, hmh, hmw, hmx, hmy, hmd⟩ :=
    (get_block_difference_loops_spec reference interesting idx ox oy fresh_block
      fresh_map horigin).1 ⟨href, hcand⟩
  have hclosed := get_block_difference_eq reference interesting idx ox oy horigin
  rw [if_pos ⟨href, hcand⟩] at hclosed
  have hl := search_window_left reference ox oy
  have hu := search_window_up reference ox oy
  have hxs := search_window_x_start reference ox oy
  have hys := search_window_y_start reference ox oy
  refine ⟨m, _, copy_block reference ox oy, hm, hclosed, ?_, ?_, ?_, ?_, ?_, ?_, ?_, ?_, ?_⟩
  · unfold get_block_from_origin
    rw [if_pos href]
  · rw [hmh]; rfl
  · rw [hmw]; rfl
  · rw [hmx]; rfl
  · rw [hmy]; rfl
  · intro i hi j hj
    refine ⟨copy_block interesting ((search_window reference ox oy).x_start + j)
      ((search_window reference ox oy).y_start + i), ?_, hmd i hi j hj, rfl⟩
    unfold get_block_from_origin
    rw [if_pos (hcand i (by omega) j (by omega))]
  · omega
  · omega
  · intro hw hh
    have hsome : (get_block_difference reference interesting idx).isSome := by
      rw [hclosed]; rfl
    have hc := center_in_map reference interesting idx ox oy hw hh horigin hsome
    omega

theorem map_cells_are_scores_witness :
    ∃ m m0,
      get_block_difference_loops image64 image64 1 (fun _ _ => 0) (fun _ _ => 0)
        = some m ∧
      get_block_difference image64 image64 1 = some m0 ∧
      m.height = 18 ∧ m.width = 17 ∧ m.center_x = 1 ∧ m.center_y = 0 ∧
      ∀ i < m.height, ∀ j < m.width, m0.data i j = m.data i j := by
  have horigin : block_origin image64 1 = some (1, 0) := by decide
  have hwin : search_window image64 1 0 =
      { left_offset := 1, right_offset := 16, up_offset := 0, down_offset := 16,
        x_start := 0, y_start := 0 } := by
    rfl
  have h1 : image64.width = 64 := rfl
  have h2 : image64.height = 64 := rfl
  obtain ⟨m, m0, refb, hm, hm0, -, e1, e2, e3, e4, hcells, -, -, hcenter⟩ :=
    map_cells_are_scores image64 image64 1 1 0 (fun _ _ => 0) (fun _ _ => 0) horigin
      (by rw [reads_in_range_iff]; omega)
      (by
        rw [hwin]
        intro i hi j hj
        rw [reads_in_range_iff]
        simp only at hi hj ⊢
        omega)
  have hdims := get_block_difference_eq image64 image64 1 1 0 horigin
  rw [hm0] at hdims
  split_ifs at hdims
  have hm0' := Option.some.inj hdims
  have d1 : m0.height = 18 := by rw [hm0', hwin]; rfl
  have d2 : m0.width = 17 := by rw [hm0', hwin]; rfl
  have d3 : m0.center_x = 1 := by rw [hm0', hwin]; rfl
  have d4 : m0.center_y = 0 := by rw [hm0', hwin]; rfl
  refine ⟨m, m0, hm, hm0, by omega, by omega, by omega, by omega, ?_⟩
  intro i hi j hj
  obtain ⟨c, -, hc1, hc2⟩ := hcells i hi j hj
  rw [hc1, hc2]

/-- C20: a zero score means an exact match.  For two blocks of positive area,
if `get_block_mad a b = 0` then `a[i][j] = b[i][j]` for every
`i < min(a.height, b.height)` and `j < min(a.width, b.width)`; hence a cell
of a map returned by `get_block_difference` is 0 only when its candidate
block holds the samples of the reference block. -/
theorem get_block_mad_zero_exact_match (a b : ImageData)
    (haw : 0 < a.width) (hah : 0 < a.height) (hbw : 0 < b.width) (hbh : 0 < b.height)
    (hzero : get_block_mad a b = 0) :
    (∀ i < min a.height b.height, ∀ j < min a.width b.width, a.data i j = b.data i j) ∧
    (∀ (reference interesting : ImageData) (idx ox oy : Nat) (m : BlockData),
      block_origin reference idx = some (ox, oy) →
      get_block_difference reference interesting idx = some m →
      ∀ i < m.height, ∀ j < m.width, m.data i j = 0 →
        ∀ r < 16, ∀ c < 16,
          interesting.data ((search_window reference ox oy).y_start + i + r)
              ((search_window reference ox oy).x_start + j + c)
            = reference.data (oy + r) (ox + c)) := by
  constructor
  · exact (get_block_mad_eq_zero_iff a b (by omega) (by omega)).mp hzero
  · intro reference interesting idx ox oy m horigin hm i _ j _ hz r hr c hc
    rw [get_block_difference_eq reference interesting idx ox oy horigin] at hm
    split_ifs at hm
    have hm' := (Option.some.inj hm).symm
    rw [hm'] at hz
    simp only [difference_map] at hz
    exact ((mad_copy_block_eq_zero_iff _ _ _ _ _ _).mp hz r hr c hc).symm

theorem get_block_mad_zero_exact_match_witness :
    get_block_mad block_a (copy_block block_a 0 0) = 0 ∧
    ∀ i < min block_a.height (copy_block block_a 0 0).height,
      ∀ j < min block_a.width (copy_block block_a 0 0).width,
        block_a.data i j = (copy_block block_a 0 0).data i j := by
  have hz : get_block_mad block_a (copy_block block_a 0 0) = 0 := by
    rw [get_block_mad_eq_zero_iff _ _ (by decide) (by decide)]
    intro i _ j _
    simp [copy_block]
  exact ⟨hz, (get_block_mad_zero_exact_match block_a (copy_block block_a 0 0) (by decide)
    (by decide) (by decide) (by decide) hz).1⟩

/-! ## The range of the metric -/

theorem abs_diff_le (a b n : Nat) (ha : a ≤ n) (hb : b ≤ n) : abs_diff a b ≤ n := by
  unfold abs_diff
  split_ifs <;> omega

theorem mad_accumulate_le (a b : ImageData) (h w : Nat)
    (ha : ∀ i < h, ∀ j < w, a.data i j ≤ 255)
    (hb : ∀ i < h, ∀ j < w, b.data i j ≤ 255) :
    mad_accumulate a b h w ≤ 255 * (w * h) := by
  rw [mad_accumulate_eq_sum]
  have hrow : ∀ i ∈ Finset.range h,
      ∑ j in Finset.range w, abs_diff (a.data i j) (b.data i j) ≤ 255 * w := by
    intro i hi
    have hcell : ∀ j ∈ Finset.range w, abs_diff (a.data i j) (b.data i j) ≤ 255 := by
      intro j hj
      exact abs_diff_le _ _ _ (ha i (Finset.mem_range.mp hi) j (Finset.mem_range.mp hj))
        (hb i (Finset.mem_range.mp hi) j (Finset.mem_range.mp hj))
    have := Finset.sum_le_card_nsmul (Finset.range w) _ 255 hcell
    simpa [Nat.mul_comm] using this
  have := Finset.sum_le_card_nsmul (Finset.range h) _ (255 * w) hrow
  simp only [Finset.card_range, smul_eq_mul] at this
  calc ∑ i in Finset.range h, ∑ j in Finset.range w, abs_diff (a.data i j) (b.data i j)
      ≤ h * (255 * w) := this
    _ = 255 * (w * h) := by ring

theorem one_third_not_double : ¬ double_representable (1 / 3) := by
  rintro ⟨m, p, k, -, -, -, h⟩
  have h2k : ((2 : ℚ) ^ k) ≠ 0 := pow_ne_zero _ (by norm_num)
  rw [eq_div_iff h2k] at h
  have h3 : ((2 : ℚ) ^ k) = 3 * ((m : ℚ) * 2 ^ p) := by linarith
  have hz : ((2 : ℤ) ^ k) = 3 * (m * 2 ^ p) := by exact_mod_cast h3
  have hdvd : (3 : ℤ) ∣ 2 ^ k := ⟨_, hz⟩
  have hprime : Prime (3 : ℤ) := Int.prime_three
  have := hprime.dvd_of_dvd_pow hdvd
  omega

/-- C19 (amended): range of the metric.  For two blocks of positive area
with samples at most 255, the exact quotient that `get_block_mad` computes
satisfies `0 <= get_block_mad a b <= 255` and is a natural multiple of
`1 / (minWidth * minHeight)`; when `minWidth * minHeight` is a power of two
`2^k` with `k <= 45` (for 16x16 blocks, 256) that quotient is a `double`, so
the double-precision result equals it. -/
theorem get_block_mad_range (a b : ImageData)
    (haw : 0 < a.width) (hah : 0 < a.height) (hbw : 0 < b.width) (hbh : 0 < b.height)
    (ha : ∀ i < min a.height b.height, ∀ j < min a.width b.width, a.data i j ≤ 255)
    (hb : ∀ i < min a.height b.height, ∀ j < min a.width b.width, b.data i j ≤ 255) :
    0 ≤ get_block_mad a b ∧ get_block_mad a b ≤ 255 ∧
    (∃ n : ℕ, get_block_mad a b
      = (n : ℚ) / (((min a.width b.width * min a.height b.height : ℕ)) : ℚ)) ∧
    (∀ k ≤ 45, min a.width b.width * min a.height b.height = 2 ^ k →
      double_representable (get_block_mad a b)) := by
  have hle := mad_accumulate_le a b _ _ ha hb
  have hpos : 0 < min a.width b.width * min a.height b.height :=
    Nat.mul_pos (by omega) (by omega)
  have hposq : (0 : ℚ) < ((min a.width b.width : ℕ) : ℚ) * ((min a.height b.height : ℕ) : ℚ) := by
    exact_mod_cast hpos
  refine ⟨get_block_mad_nonneg a b, ?_, ?_, ?_⟩
  · rw [get_block_mad_eq, div_le_iff₀ hposq]
    exact_mod_cast hle
  · exact ⟨mad_accumulate a b (min a.height b.height) (min a.width b.width), by
      rw [get_block_mad_eq, Nat.cast_mul]⟩
  · intro k hk harea
    refine ⟨(mad_accumulate a b (min a.height b.height) (min a.width b.width) : ℤ), 0, k,
      ?_, by omega, by omega, ?_⟩
    · rw [harea] at hle
      have hpow : (2 : ℕ) ^ k ≤ 2 ^ 45 := Nat.pow_le_pow_right (by omega) hk
      have hlt : mad_accumulate a b (min a.height b.height) (min a.width b.width)
          < 2 ^ 53 := by
        calc mad_accumulate a b (min a.height b.height) (min a.width b.width)
            ≤ 255 * 2 ^ k := hle
          _ ≤ 255 * 2 ^ 45 := Nat.mul_le_mul_left _ hpow
          _ < 2 ^ 53 := by norm_num
      rw [abs_of_nonneg (by positivity)]
      exact_mod_cast hlt
    · rw [get_block_mad_eq]
      have hcast : ((min a.width b.width : ℕ) : ℚ) * ((min a.height b.height : ℕ) : ℚ)
          = (2 : ℚ) ^ k := by
        exact_mod_cast harea
      rw [hcast]
      simp

theorem get_block_mad_range_witness :
    0 ≤ get_block_mad (bright_block 0 0) (bright_block 3 2) ∧
    get_block_mad (bright_block 0 0) (bright_block 3 2) ≤ 255 ∧
    double_representable (get_block_mad (bright_block 0 0) (bright_block 3 2)) := by
  have h := get_block_mad_range (bright_block 0 0) (bright_block 3 2) (by decide)
    (by decide) (by decide) (by decide)
    (by intro i _ j _; simp only [bright_block]; split_ifs <;> omega)
    (by intro i _ j _; simp only [bright_block]; split_ifs <;> omega)
  exact ⟨h.1, h.2.1, h.2.2.2 10 (by omega) (by decide)⟩

/-- C19 (counterexample): for two blocks of one row and three columns that
differ by 1 in one sample the exact quotient is `1/3`, which no `double`
holds, so the double-precision result is not the exact rational value. -/
theorem get_block_mad_not_double :
    0 < third_a.width ∧ 0 < third_a.height ∧ 0 < third_b.width ∧ 0 < third_b.height ∧
    get_block_mad third_a third_b = 1 / 3 ∧
    ¬ double_representable (get_block_mad third_a third_b) := by
  have hval : get_block_mad third_a third_b = 1 / 3 := by
    rw [get_block_mad_eq, mad_accumulate_eq_sum]
    simp [third_a, third_b, abs_diff, Finset.sum_range_succ]
  refine ⟨by decide, by decide, by decide, by decide, hval, ?_⟩
  rw [hval]
  exact one_third_not_double

/-! ## The histogram -/

/-- A loop that adds `c k g` to counter `g` at iteration `k` ends with the
initial counters plus the sums of the increments. -/
theorem foldl_range_pointwise_add (F : (Nat → Nat) → Nat → (Nat → Nat))
    (c : Nat → Nat → Nat) (hF : ∀ st k g, F st k g = st g + c k g)
    (n : Nat) (st0 : Nat → Nat) (g : Nat) :
    (List.range n).foldl F st0 g = st0 g + ∑ k in Finset.range n, c k g := by
  induction n with
  | zero => simp
  | succ n ih =>
    rw [List.range_succ, List.foldl_append, Finset.sum_range_succ]
    simp only [List.foldl_cons, List.foldl_nil]
    rw [hF, ih]
    omega

theorem get_group_statistics_eq_sum (image : ImageData) (g : Nat) :
    get_group_statistics image g
      = ∑ i in Finset.range image.height, ∑ j in Finset.range image.width,
          if g = get_group (image.data i j) % N_GROUPS then 1 else 0 := by
  unfold get_group_statistics
  rw [foldl_range_pointwise_add _
    (fun i g => ∑ j in Finset.range image.width,
      if g = get_group (image.data i j) % N_GROUPS then 1 else 0)]
  · simp
  · intro st i g
    rw [foldl_range_pointwise_add _
      (fun j g => if g = get_group (image.data i j) % N_GROUPS then 1 else 0)]
    intro st j g
    split_ifs <;> rfl

theorem get_group_of_byte (v : Nat) (hv : v < 256) :
    get_group v % N_GROUPS = v / 16 := by
  unfold get_group N_GROUPS
  rw [Nat.shiftRight_eq_div_pow]
  omega

theorem get_group_statistics_total (image : ImageData) :
    ∑ g in Finset.range 16, get_group_statistics image g
      = image.width * image.height := by
  simp only [get_group_statistics_eq_sum]
  rw [Finset.sum_comm]
  have hrow : ∀ i ∈ Finset.range image.height,
      ∑ g in Finset.range 16, ∑ j in Finset.range image.width,
        (if g = get_group (image.data i j) % N_GROUPS then 1 else 0) = image.width := by
    intro i _
    rw [Finset.sum_comm]
    have hcell : ∀ j ∈ Finset.range image.width,
        ∑ g in Finset.range 16,
          (if g = get_group (image.data i j) % N_GROUPS then 1 else 0) = 1 := by
      intro j _
      rw [Finset.sum_ite_eq']
      have : get_group (image.data i j) % N_GROUPS < 16 := Nat.mod_lt _ (by decide)
      simp [this]
    rw [Finset.sum_congr rfl hcell]
    simp
  rw [Finset.sum_congr rfl hrow]
  simp [Nat.mul_comm]

theorem main_n_total_eq_sum (st : Nat → Nat) :
    main_n_total st = ∑ g in Finset.range 16, st g := by
  unfold main_n_total N_GROUPS
  rw [foldl_range_add]
  simp

theorem list_range_map_sum (f : Nat → ℚ) (n : Nat) :
    ((List.range n).map f).sum = ∑ k in Finset.range n, f k := by
  induction n with
  | zero => simp
  | succ n ih =>
    rw [List.range_succ, List.map_append, List.sum_append, ih, Finset.sum_range_succ]
    simp

/-- C15: histogram totals.  For an image with at least one pixel whose
samples are bytes, `get_group_statistics` returns counts where `count[g]`,
`g < 16`, is the number of pixels whose value divided by 16 is `g`; the 16
counts sum to `width * height`; and the 16 fractions `count[g] / n_total`
that `main` prints sum to exactly 1 in exact arithmetic. -/
theorem histogram_totals (image : ImageData)
    (hw : 0 < image.width) (hh : 0 < image.height)
    (hbytes : ∀ i < image.height, ∀ j < image.width, image.data i j < 256) :
    (∀ g < 16, get_group_statistics image g
      = ((Finset.range image.height ×ˢ Finset.range image.width).filter
          (fun p => image.data p.1 p.2 / 16 = g)).card) ∧
    ∑ g in Finset.range 16, get_group_statistics image g = image.width * image.height ∧
    main_n_total (get_group_statistics image) = image.width * image.height ∧
    (main_fractions (get_group_statistics image)).length = 16 ∧
    (main_fractions (get_group_statistics image)).sum = 1 := by
  have htotal := get_group_statistics_total image
  have hn := main_n_total_eq_sum (get_group_statistics image)
  rw [htotal] at hn
  refine ⟨?_, htotal, hn, by simp [main_fractions, N_GROUPS], ?_⟩
  · intro g _
    rw [get_group_statistics_eq_sum, Finset.card_filter, Finset.sum_product]
    apply Finset.sum_congr rfl
    intro i hi
    apply Finset.sum_congr rfl
    intro j hj
    rw [get_group_of_byte _ (hbytes i (Finset.mem_range.mp hi) j (Finset.mem_range.mp hj))]
    by_cases h : image.data i j / 16 = g
    · rw [if_pos h.symm, if_pos h]
    · rw [if_neg (fun h' => h h'.symm), if_neg h]
  · unfold main_fractions N_GROUPS
    rw [list_range_map_sum, ← Finset.sum_div, hn]
    have hpos : (0 : ℚ) < ((image.width * image.height : ℕ) : ℚ) := by
      exact_mod_cast Nat.mul_pos hw hh
    rw [div_eq_one_iff_eq hpos.ne']
    exact_mod_cast htotal

theorem histogram_totals_witness :
    0 < image64.width ∧ 0 < image64.height ∧
    ∑ g in Finset.range 16, get_group_statistics image64 g = 64 * 64 ∧
    (main_fractions (get_group_statistics image64)).sum = 1 := by
  have h := histogram_totals image64 (by decide) (by decide)
    (by
      intro i _ j _
      simp only [image64]
      omega)
  exact ⟨by decide, by decide, h.2.1, h.2.2.2.2⟩

/-! ## The decoder: reading the header -/

theorem fgets_take_line (l : List Nat) (n : Nat) (rest : List Nat)
    (hlen : l.length < n) (hnl : 10 ∉ l) :
    fgets_take n (l ++ 10 :: rest) = (l ++ [10], rest) := by
  induction l generalizing n with
  | nil =>
    cases n with
    | zero => simp at hlen
    | succ n => simp [fgets_take]
  | cons c l ih =>
    cases n with
    | zero => simp at hlen
    | succ n =>
      have hc : c ≠ 10 := fun h => hnl (by simp [h])
      have hl : 10 ∉ l := fun h => hnl (by simp [h])
      simp only [List.length_cons, Nat.add_lt_add_iff_right] at hlen
      have hih := ih n hlen hl
      simp only [List.cons_append, fgets_take, if_neg hc]
      rw [show l.append (10 :: rest) = l ++ 10 :: rest from rfl, hih]

/-- A line that fits the buffer is read whole, newline included. -/
theorem fgets_line (l rest : List Nat) (hlen : l.length + 1 < BUFFER_SIZE) (hnl : 10 ∉ l) :
    fgets BUFFER_SIZE (l ++ 10 :: rest) = some (l ++ [10], rest) := by
  have h := fgets_take_line l (BUFFER_SIZE - 1) rest (by unfold BUFFER_SIZE at *; omega) hnl
  cases l with
  | nil => simp only [List.nil_append, fgets] at h ⊢; rw [h]
  | cons c l => simp only [List.cons_append, fgets] at h ⊢; rw [h]

theorem c_string_of_no_nul (l : List Nat) (h0 : 0 ∉ l) : c_string (l ++ [10]) = l ++ [10] := by
  unfold c_string
  rw [List.takeWhile_eq_self_iff]
  intro c hc
  simp only [List.mem_append, List.mem_singleton] at hc
  rcases hc with hc | hc
  · simp only [ne_eq, decide_not, Bool.not_eq_eq_eq_not, Bool.not_true, decide_eq_false_iff_not]
    intro h
    exact h0 (h ▸ hc)
  · rw [hc]
    decide

theorem mem_dropWhile_of_not (p : Nat → Bool) (s : List Nat) (c : Nat) (hc : c ∈ s)
    (hp : p c = false) : c ∈ s.dropWhile p := by
  induction s with
  | nil => simp at hc
  | cons x s ih =>
    by_cases hx : p x = true
    · rw [List.dropWhile_cons_of_pos hx]
      rcases List.mem_cons.mp hc with h | h
      · rw [h, hx] at hp
        exact absurd hp (by simp)
      · exact ih h
    · rw [List.dropWhile_cons_of_neg hx]
      exact hc

/-- Trimming a line that is not blank is defined. -/
theorem trim_isSome (l : List Nat) (h0 : 0 ∉ l) (hc : ∃ c ∈ l, isspace c = false) :
    ∃ t, trim (l ++ [10]) = some t := by
  obtain ⟨c, hcl, hcs⟩ := hc
  unfold trim rtrim
  rw [c_string_of_no_nul l h0]
  have hmem : c ∈ ltrim (l ++ [10]) :=
    mem_dropWhile_of_not isspace _ c (List.mem_append_left _ hcl) hcs
  have hall : ¬ (ltrim (l ++ [10])).all isspace = true := by
    rw [List.all_eq_true]
    intro h
    have := h c hmem
    rw [hcs] at this
    exact absurd this (by simp)
  rw [if_neg hall]
  exact ⟨_, rfl⟩

/-- A byte that is a decimal digit. -/
theorem digit_not_space (c : Nat) (h : 48 ≤ c ∧ c ≤ 57) : isspace c = false := by
  unfold isspace
  rw [decide_eq_false_iff_not]
  omega

/-- Trimming a line of digits gives the digits. -/
theorem trim_digits (ds : List Nat) (hne : ds ≠ [])
    (hd : ∀ c ∈ ds, 48 ≤ c ∧ c ≤ 57) : trim (ds ++ [10]) = some ds := by
  have h0 : 0 ∉ ds := fun h => by have := hd 0 h; omega
  unfold trim rtrim
  rw [c_string_of_no_nul ds h0]
  obtain ⟨d, ds', rfl⟩ := List.exists_cons_of_ne_nil hne
  have hd0 : isspace d = false := digit_not_space d (hd d (by simp))
  have hl : ltrim (d :: ds' ++ [10]) = d :: ds' ++ [10] := by
    unfold ltrim
    rw [List.cons_append, List.dropWhile_cons_of_neg (by simp [hd0])]
  rw [hl]
  have hall : ¬ (d :: ds' ++ [10]).all isspace = true := by
    simp [hd0]
  rw [if_neg hall]
  congr 1
  rw [List.reverse_append, List.reverse_singleton, List.singleton_append,
    List.dropWhile_cons_of_pos (by decide)]
  have hrev : (d :: ds').reverse ≠ [] := by simp
  obtain ⟨x, xs, hx⟩ := List.exists_cons_of_ne_nil hrev
  have hxmem : x ∈ d :: ds' := by
    have : x ∈ (d :: ds').reverse := by rw [hx]; simp
    exact List.mem_reverse.mp this
  have hxs : isspace x = false := digit_not_space x (hd x hxmem)
  rw [hx, List.dropWhile_cons_of_neg (by simp [hxs]), ← hx, List.reverse_reverse]

theorem parse_digits_append (xs ys : List Nat) (acc : Nat)
    (hx : ∀ c ∈ xs, 48 ≤ c ∧ c ≤ 57) :
    parse_digits (xs ++ ys) acc = parse_digits ys (parse_digits xs acc) := by
  induction xs generalizing acc with
  | nil => rfl
  | cons c xs ih =>
    have hc := hx c (by simp)
    simp only [List.cons_append, parse_digits, if_pos hc]
    exact ih _ (fun c' hc' => hx c' (by simp [hc']))

theorem decimal_digits (n : Nat) : ∀ c ∈ decimal n, 48 ≤ c ∧ c ≤ 57 := by
  intro c hc
  unfold decimal at hc
  simp only [List.mem_map, List.mem_reverse] at hc
  obtain ⟨d, hd, rfl⟩ := hc
  have := Nat.digits_lt_base (by norm_num : 1 < 10) hd
  omega

theorem decimal_ne_nil (n : Nat) (hn : 0 < n) : decimal n ≠ [] := by
  unfold decimal
  have h : Nat.digits 10 n ≠ [] := Nat.digits_ne_nil_iff_ne_zero.mpr hn.ne'
  simpa using h

theorem parse_digits_of_digits (L : List Nat) (hL : ∀ d ∈ L, d < 10) :
    parse_digits ((L.reverse).map (fun d => d + 48)) 0 = Nat.ofDigits 10 L := by
  induction L with
  | nil => rfl
  | cons d L ih =>
    have hd := hL d (by simp)
    rw [List.reverse_cons, List.map_append, parse_digits_append _ _ _
      (by
        intro c hc
        simp only [List.mem_map, List.mem_reverse] at hc
        obtain ⟨e, he, rfl⟩ := hc
        have := hL e (by simp [he])
        omega),
      ih (fun e he => hL e (by simp [he]))]
    simp only [List.map_cons, List.map_nil, parse_digits]
    rw [if_pos (by omega), Nat.ofDigits_cons]
    have hcast : ((d : ℕ) : ℕ) = d := rfl
    omega

/-- Parsing the decimal numeral of `n` gives `n`. -/
theorem parse_digits_decimal (n : Nat) : parse_digits (decimal n) 0 = n := by
  unfold decimal
  rw [parse_digits_of_digits _ (fun d hd => Nat.digits_lt_base (by norm_num) hd),
    Nat.ofDigits_digits]

theorem strtoll_digits (ds : List Nat) (hne : ds ≠ [])
    (hd : ∀ c ∈ ds, 48 ≤ c ∧ c ≤ 57) (hfit : parse_digits ds 0 < 2 ^ 63) :
    strtoll ds = (parse_digits ds 0 : Int) := by
  obtain ⟨d, ds', rfl⟩ := List.exists_cons_of_ne_nil hne
  have hdig := hd d (by simp)
  have hd0 : isspace d = false := digit_not_space d hdig
  unfold strtoll
  rw [List.dropWhile_cons_of_neg (by simp [hd0])]
  have h45 : d ≠ 45 := by omega
  have h43 : d ≠ 43 := by omega
  have hmin : min (2 ^ 63 - 1) (parse_digits (d :: ds') 0 : Int)
      = (parse_digits (d :: ds') 0 : Int) := by
    apply min_eq_right
    have : (parse_digits (d :: ds') 0 : Int) < 2 ^ 63 := by exact_mod_cast hfit
    omega
  split
  · rename_i heq
    exact absurd (List.cons.inj heq).1 h45
  · rename_i heq
    exact absurd (List.cons.inj heq).1 h43
  · exact hmin

theorem strtoll_decimal (n : Nat) (hn : 0 < n) (hfit : n < 2 ^ 63) :
    strtoll (decimal n) = (n : Int) := by
  rw [strtoll_digits (decimal n) (decimal_ne_nil n hn) (decimal_digits n)
    (by rw [parse_digits_decimal]; exact hfit), parse_digits_decimal]

theorem join_lines_cons_append (l : List Nat) (ls : List (List Nat)) (rest : List Nat) :
    join_lines (l :: ls) ++ rest = l ++ 10 :: (join_lines ls ++ rest) := by
  simp [join_lines]

/-- When at least `n` header lines are present the header loop stores their
trimmed contents and leaves the stream right after the `n`-th newline. -/
theorem read_header_lines (n : Nat) (lines : List (List Nat)) (rest : List Nat) (i : Nat)
    (hlines : ∀ l ∈ lines, header_line l) (hn : n ≤ lines.length) :
    ∃ results,
      read_header n i (join_lines lines ++ rest)
        = HeaderResult.ok results (join_lines (lines.drop n) ++ rest) ∧
      ∀ k < n, trim (lines.getD k [] ++ [10]) = some (results.getD k []) := by
  induction n generalizing lines i with
  | zero => exact ⟨[], rfl, fun k hk => absurd hk (Nat.not_lt_zero k)⟩
  | succ n ih =>
    cases lines with
    | nil => simp at hn
    | cons l ls =>
      obtain ⟨hlen, h0, hnl, hc⟩ := hlines l (by simp)
      obtain ⟨t, ht⟩ := trim_isSome l h0 hc
      obtain ⟨results, hres, htrim⟩ := ih ls (i + 1) (fun l' hl' => hlines l' (by simp [hl']))
        (by simpa using hn)
      refine ⟨t :: results, ?_, ?_⟩
      · rw [join_lines_cons_append]
        unfold read_header
        rw [fgets_line l _ hlen hnl]
        simp only [ht, hres, List.drop_succ_cons]
      · intro k hk
        cases k with
        | zero => simpa using ht
        | succ k => simpa using htrim k (by omega)

/-- When fewer than `n` header lines are present the header loop meets the
end of the stream at the line after the last one. -/
theorem read_header_eof (n : Nat) (lines : List (List Nat)) (i : Nat)
    (hlines : ∀ l ∈ lines, header_line l) (hn : lines.length < n) :
    read_header n i (join_lines lines) = HeaderResult.eof (i + lines.length + 1) := by
  induction n generalizing lines i with
  | zero => simp at hn
  | succ n ih =>
    cases lines with
    | nil => rfl
    | cons l ls =>
      obtain ⟨hlen, h0, hnl, hc⟩ := hlines l (by simp)
      obtain ⟨t, ht⟩ := trim_isSome l h0 hc
      have hrec := ih ls (i + 1) (fun l' hl' => hlines l' (by simp [hl']))
        (by simpa using hn)
      have hjoin : join_lines (l :: ls) = l ++ 10 :: join_lines ls := rfl
      rw [hjoin]
      unfold read_header
      rw [fgets_line l _ hlen hnl]
      simp only [ht, hrec, List.length_cons]
      congr 1
      omega

/-! ## The decoder: reading the body -/

theorem encode_row_getD (grid : Nat → Nat → Nat) (W i c : Nat) (rest : List Nat)
    (hc : c < W) :
    ((List.range W).map (fun j => grid i j) ++ rest).getD c 0 = grid i c := by
  rw [List.getD_eq_getElem?_getD, List.getElem?_append_left (by simpa using hc)]
  simp [hc]

/-- On the bytes of `k` whole rows the copying loop stores exactly these rows
and stops. -/
theorem read_rows_encode (grid : Nat → Nat → Nat) (W : Nat) (hW : 0 < W) (k i : Nat)
    (row_buffer : Nat → Nat) (data : Nat → Nat → Nat) :
    ∃ data', read_rows W k i (encode_rows grid W i k) row_buffer data = some data' ∧
      (∀ r c, i ≤ r → r < i + k → c < W → data' r c = grid r c) ∧
      (∀ r c, r < i → data' r c = data r c) := by
  induction k generalizing i row_buffer data with
  | zero =>
    refine ⟨data, ?_, ?_, fun _ _ _ => rfl⟩
    · simp [read_rows, encode_rows]
    · intro r c h1 h2
      omega
  | succ k ih =>
    have hlen : ((List.range W).map (fun j => grid i j)
        ++ encode_rows grid W (i + 1) k).length
        = W + (encode_rows grid W (i + 1) k).length := by
      simp
    have hmin : min W ((List.range W).map (fun j => grid i j)
        ++ encode_rows grid W (i + 1) k).length = W := by
      rw [hlen]
      omega
    have hdrop : ((List.range W).map (fun j => grid i j)
        ++ encode_rows grid W (i + 1) k).drop W = encode_rows grid W (i + 1) k := by
      rw [List.drop_append_of_le_length (by simp)]
      rw [List.drop_of_length_le (by simp)]
      rfl
    obtain ⟨data', hd, h1, h2⟩ := ih (i + 1)
      (fun j => if j < W then ((List.range W).map (fun j => grid i j)
          ++ encode_rows grid W (i + 1) k).getD j 0 else row_buffer j)
      (fun r c => if r = i ∧ c < W then
          (if c < W then ((List.range W).map (fun j => grid i j)
            ++ encode_rows grid W (i + 1) k).getD c 0 else row_buffer c)
        else data r c)
    refine ⟨data', ?_, ?_, ?_⟩
    · simp only [encode_rows, read_rows, hmin, hdrop]
      rw [if_neg (by omega)]
      exact hd
    · intro r c hr1 hr2 hc
      by_cases hri : r = i
      · rw [h2 r c (by omega), if_pos ⟨hri, hc⟩, if_pos hc, hri]
        exact encode_row_getD grid W i c _ hc
      · exact h1 r c (by omega) (by omega) hc
    · intro r c hr
      rw [h2 r c (by omega), if_neg (by omega)]

/-! ## Claims on the decoder -/

/-- The decimal numeral of a positive `long long` is a header line. -/
theorem header_line_decimal (n : Nat) (hn : 0 < n) (hfit : n < 2 ^ 63) :
    header_line (decimal n) := by
  have hdig := decimal_digits n
  refine ⟨?_, ?_, ?_, ?_⟩
  · have hlen : (decimal n).length = (Nat.digits 10 n).length := by simp [decimal]
    rw [hlen]
    unfold BUFFER_SIZE
    by_contra hcon
    have h20 : 20 ≤ (Nat.digits 10 n).length := by omega
    have h1 : 10 ^ 20 ≤ 10 ^ (Nat.digits 10 n).length :=
      Nat.pow_le_pow_right (by norm_num) h20
    have h2 := Nat.base_pow_length_digits_le 10 n (by norm_num) hn.ne'
    have h3 : 10 * n < 10 ^ 20 := by
      calc 10 * n < 10 * 2 ^ 63 := by omega
        _ < 10 ^ 20 := by norm_num
    omega
  · intro h
    have := hdig 0 h
    omega
  · intro h
    have := hdig 10 h
    omega
  · obtain ⟨d, ds, hd⟩ := List.exists_cons_of_ne_nil (decimal_ne_nil n hn)
    exact ⟨d, by rw [hd]; simp, digit_not_space d (hdig d (by rw [hd]; simp))⟩

/-- C13: decode round trip.  For a grid of `H` rows of `W` bytes with
`0 < W, H` (both within `long long`), a format tag and a maximum-value line
that are header lines, decoding the stream of the four newline-terminated
header lines followed by the `W * H` grid bytes in row-major order yields an
image with `width = W`, `height = H` and `data[i][j]` equal to the byte of
the grid at row `i`, column `j`, whatever the fresh memory holds. -/
theorem decode_round_trip (tag maxval : List Nat) (grid : Nat → Nat → Nat) (W H : Nat)
    (fresh_rows : Nat → Nat → Nat) (fresh_buffer : Nat → Nat)
    (hW : 0 < W) (hH : 0 < H) (hWfit : W < 2 ^ 63) (hHfit : H < 2 ^ 63)
    (htag : header_line tag) (hmax : header_line maxval) :
    ∃ img, read_image_data (encode_image tag maxval grid W H) fresh_rows fresh_buffer
        = ReadResult.image img ∧
      img.width = W ∧ img.height = H ∧
      ∀ i < H, ∀ j < W, img.data i j = grid i j := by
  have hlines : ∀ l ∈ [tag, decimal W, decimal H, maxval], header_line l := by
    intro l hl
    simp only [List.mem_cons, List.mem_singleton, List.not_mem_nil, or_false] at hl
    rcases hl with rfl | rfl | rfl | rfl
    · exact htag
    · exact header_line_decimal W hW hWfit
    · exact header_line_decimal H hH hHfit
    · exact hmax
  obtain ⟨results, hres, htrim⟩ := read_header_lines 4
    [tag, decimal W, decimal H, maxval] (encode_rows grid W 0 H) 0 hlines (by simp)
  have hw : results.getD 1 [] = decimal W := by
    have h := htrim 1 (by omega)
    simp only [List.getD_cons_succ, List.getD_cons_zero] at h
    rw [trim_digits (decimal W) (decimal_ne_nil W hW) (decimal_digits W)] at h
    exact (Option.some.inj h).symm
  have hh : results.getD 2 [] = decimal H := by
    have h := htrim 2 (by omega)
    simp only [List.getD_cons_succ, List.getD_cons_zero] at h
    rw [trim_digits (decimal H) (decimal_ne_nil H hH) (decimal_digits H)] at h
    exact (Option.some.inj h).symm
  obtain ⟨data, hdata, hcells, -⟩ := read_rows_encode grid W hW H 0 fresh_buffer fresh_rows
  have hdrop : join_lines (List.drop 4 [tag, decimal W, decimal H, maxval])
      ++ encode_rows grid W 0 H = encode_rows grid W 0 H := by
    simp [join_lines]
  rw [hdrop] at hres
  refine ⟨{ data := data, width := W, height := H }, ?_, rfl, rfl, ?_⟩
  · unfold read_image_data encode_image N_HEADER_LINES
    rw [hres]
    simp only [hw, hh, strtoll_decimal W hW hWfit, strtoll_decimal H hH hHfit]
    rw [if_neg (by omega)]
    simp only [Int.toNat_ofNat, hdata]
  · intro i hi j hj
    exact hcells i j (by omega) (by omega) hj

theorem decode_round_trip_witness :
    ∃ img, read_image_data (encode_image [80, 53] [50, 53, 53] (fun i j => 10 * i + j) 3 2)
        (fun _ _ => 0) (fun _ => 0) = ReadResult.image img ∧
      img.width = 3 ∧ img.height = 2 ∧
      ∀ i < 2, ∀ j < 3, img.data i j = 10 * i + j :=
  decode_round_trip [80, 53] [50, 53, 53] (fun i j => 10 * i + j) 3 2 (fun _ _ => 0)
    (fun _ => 0) (by decide) (by decide) (by norm_num) (by norm_num)
    ⟨by decide, by decide, by decide, 80, by decide, by decide⟩
    ⟨by decide, by decide, by decide, 50, by decide, by decide⟩

/-- C14 (amended): truncated header.  For a stream made of header lines, each
newline-terminated, shorter than the 32-byte line buffer, free of NUL and not
blank, followed by further bytes only when at least four such lines are
present, `read_image_data` ends with the header error if and only if fewer
than four lines are available; the error then names the line after the last
one and no image is produced; and when at least four lines are present the
header loop succeeds and leaves the stream right after the fourth newline,
at the pixel body. -/
theorem header_error_iff_short (lines : List (List Nat)) (rest : List Nat)
    (fresh_rows : Nat → Nat → Nat) (fresh_buffer : Nat → Nat)
    (hlines : ∀ l ∈ lines, header_line l)
    (hrest : lines.length < 4 → rest = []) :
    ((∃ k, read_image_data (join_lines lines ++ rest) fresh_rows fresh_buffer
        = ReadResult.header_error k) ↔ lines.length < 4) ∧
    (lines.length < 4 →
      read_image_data (join_lines lines ++ rest) fresh_rows fresh_buffer
        = ReadResult.header_error (lines.length + 1) ∧
      ¬ ∃ img, read_image_data (join_lines lines ++ rest) fresh_rows fresh_buffer
        = ReadResult.image img) ∧
    (4 ≤ lines.length →
      ∃ results, read_header N_HEADER_LINES 0 (join_lines lines ++ rest)
        = HeaderResult.ok results (join_lines (lines.drop 4) ++ rest)) := by
  have hshort : lines.length < 4 →
      read_image_data (join_lines lines ++ rest) fresh_rows fresh_buffer
        = ReadResult.header_error (lines.length + 1) := by
    intro hlt
    rw [hrest hlt, List.append_nil]
    unfold read_image_data N_HEADER_LINES
    rw [read_header_eof 4 lines 0 hlines hlt]
    simp
  have hlong : 4 ≤ lines.length →
      ∃ results, read_header N_HEADER_LINES 0 (join_lines lines ++ rest)
        = HeaderResult.ok results (join_lines (lines.drop 4) ++ rest) := by
    intro hge
    obtain ⟨results, hres, -⟩ := read_header_lines 4 lines rest 0 hlines hge
    exact ⟨results, hres⟩
  refine ⟨⟨?_, fun hlt => ⟨_, hshort hlt⟩⟩, fun hlt => ⟨hshort hlt, ?_⟩, hlong⟩
  · rintro ⟨k, hk⟩
    by_contra hge
    obtain ⟨results, hres⟩ := hlong (by omega)
    unfold read_image_data at hk
    rw [hres] at hk
    simp only at hk
    split_ifs at hk
    split at hk <;> exact absurd hk (by simp)
  · rintro ⟨img, himg⟩
    rw [hshort hlt] at himg
    exact absurd himg (by simp)

theorem header_error_iff_short_witness :
    read_image_data (join_lines [[80, 53], [50]] ++ []) (fun _ _ => 0) (fun _ => 0)
      = ReadResult.header_error 3 :=
  ((header_error_iff_short [[80, 53], [50]] [] (fun _ _ => 0) (fun _ => 0)
    (by
      intro l hl
      simp only [List.mem_cons, List.mem_singleton, List.not_mem_nil, or_false] at hl
      rcases hl with rfl | rfl
      · exact ⟨by decide, by decide, by decide, 80, by decide, by decide⟩
      · exact ⟨by decide, by decide, by decide, 50, by decide, by decide⟩)
    (fun _ => rfl)).2.1 (by decide)).1

/-- C14 (counterexample): `long_line_stream` holds no newline at all, so
fewer than four newline-delimited header lines are available before the end
of the stream; yet there is no header error: four `fgets` calls take 31
bytes each and `read_image_data` returns the 1x1 image holding 7. -/
theorem header_error_missed_on_long_line :
    10 ∉ long_line_stream ∧
    ∀ (fresh_rows : Nat → Nat → Nat) (fresh_buffer : Nat → Nat),
      (∃ img, read_image_data long_line_stream fresh_rows fresh_buffer
          = ReadResult.image img ∧
        img.width = 1 ∧ img.height = 1 ∧ img.data 0 0 = 7) ∧
      ¬ ∃ k, read_image_data long_line_stream fresh_rows fresh_buffer
          = ReadResult.header_error k := by
  refine ⟨by decide, ?_⟩
  intro fresh_rows fresh_buffer
  have h : ∃ img, read_image_data long_line_stream fresh_rows fresh_buffer
      = ReadResult.image img ∧ img.width = 1 ∧ img.height = 1 ∧ img.data 0 0 = 7 :=
    ⟨_, rfl, rfl, rfl, rfl⟩
  refine ⟨h, ?_⟩
  rintro ⟨k, hk⟩
  obtain ⟨img, himg, -⟩ := h
  rw [himg] at hk
  exact absurd hk (by simp)

/-- C18 (the code at a failing input): the header `P5`, `1`, `1`, `255`
declares a 1x1 image.  With the single body byte 7 the decoder returns that
image; with one more byte after it the copying loop runs again with row
index 1, which equals the height, and stores outside the allocated rows. -/
theorem extra_body_byte_overruns :
    (∀ (fresh_rows : Nat → Nat → Nat) (fresh_buffer : Nat → Nat),
      ∃ img, read_image_data (header_1x1 ++ [7]) fresh_rows fresh_buffer
          = ReadResult.image img ∧
        img.width = 1 ∧ img.height = 1 ∧ img.data 0 0 = 7) ∧
    (∀ (fresh_rows : Nat → Nat → Nat) (fresh_buffer : Nat → Nat),
      read_rows 1 0 1 [9] fresh_buffer fresh_rows = none) ∧
    (∀ (fresh_rows : Nat → Nat → Nat) (fresh_buffer : Nat → Nat),
      read_image_data (header_1x1 ++ [7, 9]) fresh_rows fresh_buffer
        = ReadResult.undefined) :=
  ⟨fun _ _ => ⟨_, rfl, rfl, rfl, rfl⟩, fun _ _ => rfl, fun _ _ => rfl⟩

/-! ## The metric and its reference definition -/

end MAIS
